import Mathlib

/-!
Shallow embedding of `src/depth_anything/dpt.py` (DPTHead, DPT_DINOv2).

Tensors are modelled as shape metadata together with a total valuation
function into the reals; out-of-range reads return junk values that no
theorem depends on.  Operations that can fail at runtime in the source
(shape mismatches, missing attributes) return `Option`.
-/

namespace DepthAnything

/-- 4D tensor with layout (batch, channel, height, width). -/
structure Tensor where
  n : Nat
  c : Nat
  h : Nat
  w : Nat
  data : Nat → Nat → Nat → Nat → ℝ

/-- 3D token tensor with layout (batch, tokens, embedding). -/
structure Tokens where
  n : Nat
  t : Nat
  e : Nat
  data : Nat → Nat → Nat → ℝ

/-- 2D tensor with layout (batch, embedding): a class token. -/
structure ClsToken where
  n : Nat
  e : Nat
  data : Nat → Nat → ℝ

/-- 3D output tensor with layout (batch, height, width): the depth map after
`squeeze(1)`. -/
structure Image3 where
  n : Nat
  h : Nat
  w : Nat
  data : Nat → Nat → Nat → ℝ

/-- Shape quadruple of a 4D tensor. -/
def Tensor.shape (x : Tensor) : Nat × Nat × Nat × Nat := (x.n, x.c, x.h, x.w)

/-- Pointwise application of a scalar function (`nn.ReLU`, `nn.Sigmoid`, ...). -/
def Tensor.map (f : ℝ → ℝ) (x : Tensor) : Tensor :=
  { x with data := fun b c y z => f (x.data b c y z) }

/-- Pointwise application on a token tensor (`nn.GELU` after the readout linear). -/
def Tokens.map (f : ℝ → ℝ) (x : Tokens) : Tokens :=
  { x with data := fun b t i => f (x.data b t i) }

/-- Elementwise sum; the shape is taken from the first argument (callers guard
that both shapes agree, as the torch broadcast would require). -/
def addT (x y : Tensor) : Tensor :=
  { x with data := fun b c i j => x.data b c i j + y.data b c i j }

/-- The rectifier `relu(v) = max v 0`. -/
def relu (v : ℝ) : ℝ := max v 0

/-- The logistic sigmoid `1 / (1 + exp (-v))`. -/
noncomputable def sigmoid (v : ℝ) : ℝ := 1 / (1 + Real.exp (-v))

/-- Cumulative distribution function of the standard Gaussian. -/
noncomputable def gaussianCdf (v : ℝ) : ℝ :=
  (∫ t in Set.Iic v, Real.exp (-(t ^ 2) / 2)) / Real.sqrt (2 * Real.pi)

/-- Exact GELU activation `v * Phi(v)` (`nn.GELU` default). -/
noncomputable def gelu (v : ℝ) : ℝ := v * gaussianCdf v

/-- Pointwise ReLU on a 4D tensor (`F.relu`, `nn.ReLU`). -/
def reluT (x : Tensor) : Tensor := x.map relu

/-- Zero-padded read used by convolution: indices outside the spatial extent
read as 0. -/
def padRead (x : Tensor) (b c : Nat) (y z : Int) : ℝ :=
  if 0 ≤ y ∧ y < (x.h : Int) ∧ 0 ≤ z ∧ z < (x.w : Int) then
    x.data b c y.toNat z.toNat
  else 0

/-- Weights of a `nn.Conv2d(inC, outC, kernel, stride, padding)` layer. -/
structure Conv2d where
  inC : Nat
  outC : Nat
  kernel : Nat
  stride : Nat
  padding : Nat
  weight : Nat → Nat → Nat → Nat → ℝ
  bias : Nat → ℝ

/-- Convolution output size along one spatial dimension. -/
def Conv2d.outSize (cv : Conv2d) (s : Nat) : Nat :=
  (s + 2 * cv.padding - cv.kernel) / cv.stride + 1

/-- Semantics of `nn.Conv2d.forward`: fails (as torch raises) when the input
channel count mismatches or the padded input is smaller than the kernel. -/
def Conv2d.apply (cv : Conv2d) (x : Tensor) : Option Tensor :=
  if x.c = cv.inC ∧ cv.kernel ≤ x.h + 2 * cv.padding ∧
      cv.kernel ≤ x.w + 2 * cv.padding ∧ 0 < cv.stride then
    some { n := x.n, c := cv.outC, h := cv.outSize x.h, w := cv.outSize x.w,
           data := fun b o y z =>
             cv.bias o +
               ∑ ci ∈ Finset.range cv.inC, ∑ i ∈ Finset.range cv.kernel,
                 ∑ j ∈ Finset.range cv.kernel,
                   cv.weight o ci i j *
                     padRead x b ci ((y * cv.stride + i : Int) - cv.padding)
                       ((z * cv.stride + j : Int) - cv.padding) }
  else none

/-- Conv2d constructor mirroring the keyword arguments used in `dpt.py`. -/
def mkConv (inC outC kernel stride padding : Nat)
    (weight : Nat → Nat → Nat → Nat → ℝ) (bias : Nat → ℝ) : Conv2d :=
  { inC := inC, outC := outC, kernel := kernel, stride := stride,
    padding := padding, weight := weight, bias := bias }

/-- Weights of a `nn.ConvTranspose2d(inC, outC, kernel, stride, padding=0)`
layer (padding 0, as in `DPTHead.resize_layers`). -/
structure ConvTranspose2d where
  inC : Nat
  outC : Nat
  kernel : Nat
  stride : Nat
  weight : Nat → Nat → Nat → Nat → ℝ
  bias : Nat → ℝ

/-- Transposed-convolution output size: `(s - 1) * stride + kernel`
(signed arithmetic so that a zero-size input stays zero-size). -/
def ConvTranspose2d.outSize (cv : ConvTranspose2d) (s : Nat) : Nat :=
  (((s : Int) - 1) * cv.stride + cv.kernel).toNat

/-- Kernel-window read of the transposed-convolution weight. -/
def ctWeightRead (cv : ConvTranspose2d) (ci o : Nat) (dy dz : Int) : ℝ :=
  if 0 ≤ dy ∧ dy < (cv.kernel : Int) ∧ 0 ≤ dz ∧ dz < (cv.kernel : Int) then
    cv.weight ci o dy.toNat dz.toNat
  else 0

/-- Semantics of `nn.ConvTranspose2d.forward` with padding 0. -/
def ConvTranspose2d.apply (cv : ConvTranspose2d) (x : Tensor) : Option Tensor :=
  if x.c = cv.inC then
    some { n := x.n, c := cv.outC, h := cv.outSize x.h, w := cv.outSize x.w,
           data := fun b o y z =>
             cv.bias o +
               ∑ ci ∈ Finset.range cv.inC, ∑ iy ∈ Finset.range x.h,
                 ∑ ix ∈ Finset.range x.w,
                   x.data b ci iy ix *
                     ctWeightRead cv ci o ((y : Int) - iy * cv.stride)
                       ((z : Int) - ix * cv.stride) }
  else none

/-- Weights of a `nn.Linear(inF, outF)` layer. -/
structure Linear where
  inF : Nat
  outF : Nat
  weight : Nat → Nat → ℝ
  bias : Nat → ℝ

/-- Semantics of `nn.Linear.forward` on the last dimension of a token tensor. -/
def Linear.apply (l : Linear) (x : Tokens) : Option Tokens :=
  if x.e = l.inF then
    some { n := x.n, t := x.t, e := l.outF,
           data := fun b t o =>
             l.bias o + ∑ i ∈ Finset.range l.inF, l.weight o i * x.data b t i }
  else none

/-- Clamp a signed index into `[0, n-1]` (border replication at the edges of
bilinear sampling). -/
def clampIdx (n : Nat) (i : Int) : Nat := (max 0 (min i ((n : Int) - 1))).toNat

/-- Source coordinate of output index `i` under `align_corners=True`
interpolation: `i * (inS - 1) / (outS - 1)`. -/
noncomputable def srcCoord (outS inS : Nat) (i : Nat) : ℝ :=
  if outS ≤ 1 then 0 else (i : ℝ) * ((inS : ℝ) - 1) / ((outS : ℝ) - 1)

/-- Semantics of `F.interpolate(x, (oh, ow), mode="bilinear",
align_corners=True)`. -/
noncomputable def Tensor.bilinearAC (x : Tensor) (oh ow : Nat) : Tensor :=
  { n := x.n, c := x.c, h := oh, w := ow,
    data := fun b c y z =>
      let sy := srcCoord oh x.h y
      let sx := srcCoord ow x.w z
      let y0 : Int := ⌊sy⌋
      let x0 : Int := ⌊sx⌋
      let fy := sy - (y0 : ℝ)
      let fx := sx - (x0 : ℝ)
      let v00 := x.data b c (clampIdx x.h y0) (clampIdx x.w x0)
      let v01 := x.data b c (clampIdx x.h y0) (clampIdx x.w (x0 + 1))
      let v10 := x.data b c (clampIdx x.h (y0 + 1)) (clampIdx x.w x0)
      let v11 := x.data b c (clampIdx x.h (y0 + 1)) (clampIdx x.w (x0 + 1))
      (1 - fy) * ((1 - fx) * v00 + fx * v01) + fy * ((1 - fx) * v10 + fx * v11) }

/-- Modelled from the spec: the residual unit inside the fusion block of
`blocks.py` (not under `src/`): "Each refinement stage fuses two inputs via
learned residual convolutions"; a ReLU-conv-ReLU-conv stack with an optional
per-channel affine normalization (the `use_bn` toggle) and a skip connection. -/
structure ResidualConvUnit where
  conv1 : Conv2d
  conv2 : Conv2d
  bn : Bool
  gamma1 : Nat → ℝ
  beta1 : Nat → ℝ
  gamma2 : Nat → ℝ
  beta2 : Nat → ℝ

/-- Per-channel affine map (inference-time batch normalization). -/
def affineC (g b : Nat → ℝ) (x : Tensor) : Tensor :=
  { x with data := fun bi c i j => g c * x.data bi c i j + b c }

/-- Optional inference-time normalization step, applied when `bn` is set. -/
def bnStep (bn : Bool) (g b : Nat → ℝ) (x : Tensor) : Tensor :=
  if bn then affineC g b x else x

/-- Modelled from the spec: forward pass of the residual unit of the fusion
block in `blocks.py` (not under `src/`); the skip add requires matching
shapes. -/
def ResidualConvUnit.apply (u : ResidualConvUnit) (x : Tensor) : Option Tensor := do
  let y ← u.conv1.apply (reluT x)
  let y := bnStep u.bn u.gamma1 u.beta1 y
  let y ← u.conv2.apply (reluT y)
  let y := bnStep u.bn u.gamma2 u.beta2 y
  if x.shape = y.shape then some (addT y x) else none

/-- Modelled from the spec: `blocks.FeatureFusionBlock` (not under `src/`):
"reusable module combining a coarser-scale accumulator with a finer-scale
feature map via residual convolutions and upsampling"
(residual conv, elementwise combine, upsample to the requested target size). -/
structure FeatureFusionBlock where
  resConfUnit1 : ResidualConvUnit
  resConfUnit2 : ResidualConvUnit
  outConv : Conv2d

/-- Modelled from the spec: the optional auxiliary input of the fusion block
passes through `resConfUnit1` and is added elementwise to the accumulator. -/
def combineRes (fb : FeatureFusionBlock) (x : Tensor) :
    Option Tensor → Option Tensor
  | none => some x
  | some r => do
      let r2 ← fb.resConfUnit1.apply r
      if x.shape = r2.shape then some (addT x r2) else none

/-- Modelled from the spec: the fusion block upsamples to the requested
target size when one is given and performs no further resize otherwise. -/
noncomputable def resizeOpt (out : Tensor) : Option (Nat × Nat) → Tensor
  | none => out
  | some (sh, sw) => out.bilinearAC sh sw

/-- Modelled from the spec: forward pass of `blocks.FeatureFusionBlock` (not
under `src/`): the optional second input passes through `resConfUnit1` and is
added to the first; the sum passes through `resConfUnit2`, is bilinearly
resized to the requested size when one is given ("no further resize" when
none is), and goes through a 1x1 output convolution. -/
noncomputable def FeatureFusionBlock.apply (fb : FeatureFusionBlock) (x : Tensor)
    (res : Option Tensor) (size : Option (Nat × Nat)) : Option Tensor := do
  let out ← combineRes fb x res
  let out ← fb.resConfUnit2.apply out
  fb.outConv.apply (resizeOpt out size)

/-- Raw learned weights for one fusion block. -/
structure FusionWeights where
  r1c1w : Nat → Nat → Nat → Nat → ℝ
  r1c1b : Nat → ℝ
  r1c2w : Nat → Nat → Nat → Nat → ℝ
  r1c2b : Nat → ℝ
  r2c1w : Nat → Nat → Nat → Nat → ℝ
  r2c1b : Nat → ℝ
  r2c2w : Nat → Nat → Nat → Nat → ℝ
  r2c2b : Nat → ℝ
  outw : Nat → Nat → Nat → Nat → ℝ
  outb : Nat → ℝ
  g1 : Nat → ℝ
  b1 : Nat → ℝ
  g2 : Nat → ℝ
  b2 : Nat → ℝ
  g3 : Nat → ℝ
  b3 : Nat → ℝ
  g4 : Nat → ℝ
  b4 : Nat → ℝ

/-- Modelled from the spec: `_make_fusion_block(features, use_bn)` of
`dpt.py` building a `blocks.FeatureFusionBlock` (not under `src/`) whose
residual convolutions are 3x3 stride-1 pad-1 at the common fusion width
`features`, with a 1x1 output convolution at the same width. -/
def mkFusionBlock (features : Nat) (use_bn : Bool) (W : FusionWeights) :
    FeatureFusionBlock :=
  { resConfUnit1 :=
      { conv1 := mkConv features features 3 1 1 W.r1c1w W.r1c1b,
        conv2 := mkConv features features 3 1 1 W.r1c2w W.r1c2b,
        bn := use_bn, gamma1 := W.g1, beta1 := W.b1,
        gamma2 := W.g2, beta2 := W.b2 },
    resConfUnit2 :=
      { conv1 := mkConv features features 3 1 1 W.r2c1w W.r2c1b,
        conv2 := mkConv features features 3 1 1 W.r2c2w W.r2c2b,
        bn := use_bn, gamma1 := W.g3, beta1 := W.b3,
        gamma2 := W.g4, beta2 := W.b4 },
    outConv := mkConv features features 1 1 0 W.outw W.outb }

/-- Spatial resampler variants of `DPTHead.resize_layers`: a transposed
convolution, `nn.Identity`, or a strided convolution. -/
inductive ResizeOp where
  | convTranspose (cv : ConvTranspose2d)
  | identity
  | conv (cv : Conv2d)

/-- Forward pass of one resampler. -/
def ResizeOp.apply : ResizeOp → Tensor → Option Tensor
  | .convTranspose cv, x => cv.apply x
  | .identity, x => some x
  | .conv cv, x => cv.apply x

/-- The `nclass > 1` output head `scratch.output_conv`:
`Sequential(Conv2d(f, f, 3, 1, 1), ReLU, Conv2d(f, nclass, 1, 1, 0))`. -/
structure SegHead where
  convA : Conv2d
  convB : Conv2d

/-- Forward pass of the `nclass > 1` output head. -/
def SegHead.apply (s : SegHead) (x : Tensor) : Option Tensor := do
  let y ← s.convA.apply x
  s.convB.apply (reluT y)

/-- The depth output head `scratch.output_conv2`:
`Sequential(Conv2d(f/2, 32, 3, 1, 1), ReLU, Conv2d(32, 1, 1, 1, 0), act,
Identity)` where `act` is `Sigmoid` in metric mode and `ReLU` otherwise. -/
structure OutputConv2 where
  convA : Conv2d
  convB : Conv2d
  act : ℝ → ℝ

/-- Forward pass of `scratch.output_conv2`. -/
def OutputConv2.apply (s : OutputConv2) (x : Tensor) : Option Tensor := do
  let y ← s.convA.apply x
  let y ← s.convB.apply (reluT y)
  some (y.map s.act)

/-- The `scratch` container assembled in `DPTHead.__init__`: four
channel-reducing convolutions, four fusion blocks, and the output head
attributes, each of which exists only on one side of the `nclass` branch
(hence `Option`). -/
structure Scratch where
  layer1_rn : Conv2d
  layer2_rn : Conv2d
  layer3_rn : Conv2d
  layer4_rn : Conv2d
  refinenet1 : FeatureFusionBlock
  refinenet2 : FeatureFusionBlock
  refinenet3 : FeatureFusionBlock
  refinenet4 : FeatureFusionBlock
  output_conv : Option SegHead
  output_conv1 : Option Conv2d
  output_conv2 : Option OutputConv2

/-- The decoder module `DPTHead`. -/
structure DPTHead where
  nclass : Nat
  use_clstoken : Bool
  projects : Nat → Conv2d
  resize_layers : Nat → ResizeOp
  readout_projects : Option (Nat → Linear)
  scratch : Scratch

/-- Raw learned weights for the whole decoder head. -/
structure HeadWeights where
  projectW : Nat → Nat → Nat → Nat → Nat → ℝ
  projectB : Nat → Nat → ℝ
  resizeW : Nat → Nat → Nat → Nat → Nat → ℝ
  resizeB : Nat → Nat → ℝ
  readoutW : Nat → Nat → Nat → ℝ
  readoutB : Nat → Nat → ℝ
  scratchW : Nat → Nat → Nat → Nat → Nat → ℝ
  fusion1 : FusionWeights
  fusion2 : FusionWeights
  fusion3 : FusionWeights
  fusion4 : FusionWeights
  segAW : Nat → Nat → Nat → Nat → ℝ
  segAB : Nat → ℝ
  segBW : Nat → Nat → Nat → Nat → ℝ
  segBB : Nat → ℝ
  oc1W : Nat → Nat → Nat → Nat → ℝ
  oc1B : Nat → ℝ
  oc2aW : Nat → Nat → Nat → Nat → ℝ
  oc2aB : Nat → ℝ
  oc2bW : Nat → Nat → Nat → Nat → ℝ
  oc2bB : Nat → ℝ

/-- Embedding of `DPTHead.__init__(nclass, in_channels, features, use_bn,
out_channels, use_clstoken, metric_depth)`: builds the per-layer 1x1
projections, the four resamplers (transpose-conv x4, transpose-conv x2,
identity, stride-2 kernel-3 conv), the optional readout projections, the
scratch convolutions and fusion blocks, and exactly one of the two output
heads depending on `nclass > 1`. -/
noncomputable def mkDPTHead (nclass in_channels features : Nat) (use_bn : Bool)
    (out_channels : List Nat) (use_clstoken metric_depth : Bool)
    (W : HeadWeights) : DPTHead :=
  { nclass := nclass,
    use_clstoken := use_clstoken,
    projects := fun i =>
      mkConv in_channels (out_channels.getD i 0) 1 1 0 (W.projectW i)
        (W.projectB i),
    resize_layers := fun i =>
      match i with
      | 0 => .convTranspose
          { inC := out_channels.getD 0 0, outC := out_channels.getD 0 0,
            kernel := 4, stride := 4,
            weight := W.resizeW 0, bias := W.resizeB 0 }
      | 1 => .convTranspose
          { inC := out_channels.getD 1 0, outC := out_channels.getD 1 0,
            kernel := 2, stride := 2,
            weight := W.resizeW 1, bias := W.resizeB 1 }
      | 2 => .identity
      | 3 => .conv (mkConv (out_channels.getD 3 0) (out_channels.getD 3 0)
          3 2 1 (W.resizeW 3) (W.resizeB 3))
      | _ + 4 => .identity,
    readout_projects :=
      if use_clstoken then
        some fun i =>
          { inF := 2 * in_channels, outF := in_channels,
            weight := W.readoutW i, bias := W.readoutB i }
      else none,
    scratch :=
      { layer1_rn := mkConv (out_channels.getD 0 0) features 3 1 1
          (W.scratchW 0) (fun _ => 0),
        layer2_rn := mkConv (out_channels.getD 1 0) features 3 1 1
          (W.scratchW 1) (fun _ => 0),
        layer3_rn := mkConv (out_channels.getD 2 0) features 3 1 1
          (W.scratchW 2) (fun _ => 0),
        layer4_rn := mkConv (out_channels.getD 3 0) features 3 1 1
          (W.scratchW 3) (fun _ => 0),
        refinenet1 := mkFusionBlock features use_bn W.fusion1,
        refinenet2 := mkFusionBlock features use_bn W.fusion2,
        refinenet3 := mkFusionBlock features use_bn W.fusion3,
        refinenet4 := mkFusionBlock features use_bn W.fusion4,
        output_conv :=
          if 1 < nclass then
            some { convA := mkConv features features 3 1 1 W.segAW W.segAB,
                   convB := mkConv features nclass 1 1 0 W.segBW W.segBB }
          else none,
        output_conv1 :=
          if 1 < nclass then none
          else some (mkConv features (features / 2) 3 1 1 W.oc1W W.oc1B),
        output_conv2 :=
          if 1 < nclass then none
          else some
            { convA := mkConv (features / 2) 32 3 1 1 W.oc2aW W.oc2aB,
              convB := mkConv 32 1 1 1 0 W.oc2bW W.oc2bB,
              act := if metric_depth then sigmoid else relu } } }

/-- Channel-wise concatenation of the patch tokens with the class token
broadcast over all token positions (`torch.cat((x, readout), -1)`). -/
def catReadout (tok : Tokens) (cls : ClsToken) : Tokens :=
  { n := tok.n, t := tok.t, e := 2 * tok.e,
    data := fun b t j =>
      if j < tok.e then tok.data b t j else cls.data b (j - tok.e) }

/-- The class-token readout branch at the top of `DPTHead.forward`'s loop
body: when `use_clstoken` is set, broadcast the class token, concatenate, and
apply the per-layer readout projection (`Linear` then `GELU`); otherwise take
the patch tokens unchanged. -/
noncomputable def readoutStage (head : DPTHead) (i : Nat)
    (entry : Tokens × ClsToken) : Option Tokens :=
  if head.use_clstoken then do
    let tok := entry.1
    let cls := entry.2
    if cls.n = tok.n ∧ cls.e = tok.e then do
      let rp ← head.readout_projects
      let y ← (rp i).apply (catReadout tok cls)
      some (y.map gelu)
    else none
  else some entry.1

/-- Per-entry processing of `DPTHead.forward`'s loop body: optional
class-token readout, permute and reshape of the token sequence into a
(batch, embed, patch_h, patch_w) grid, the per-layer 1x1 projection, and the
per-layer resampler.  The reshape requires the element counts to agree, as
`torch.reshape` does. -/
noncomputable def processOne (head : DPTHead) (i : Nat)
    (entry : Tokens × ClsToken) (patch_h patch_w : Nat) : Option Tensor := do
  let x ← readoutStage head i entry
  if x.n * x.t * x.e = x.n * x.e * (patch_h * patch_w) then do
    let grid : Tensor :=
      { n := x.n, c := x.e, h := patch_h, w := patch_w,
        data := fun b e y z => x.data b (y * patch_w + z) e }
    let grid ← (head.projects i).apply grid
    (head.resize_layers i).apply grid
  else none

/-- The top-down fusion chain of `DPTHead.forward` (source lines 129-132):
refinenet4 on the coarsest map resized to layer_3_rn's spatial size, then
refinenet3, refinenet2 with the next finer maps, and refinenet1 with no
requested size. -/
noncomputable def fusionChain (sc : Scratch) (layer_1_rn layer_2_rn layer_3_rn
    layer_4_rn : Tensor) : Option (Tensor × Tensor × Tensor × Tensor) := do
  let path_4 ← sc.refinenet4.apply layer_4_rn none
    (some (layer_3_rn.h, layer_3_rn.w))
  let path_3 ← sc.refinenet3.apply path_4 (some layer_3_rn)
    (some (layer_2_rn.h, layer_2_rn.w))
  let path_2 ← sc.refinenet2.apply path_3 (some layer_2_rn)
    (some (layer_1_rn.h, layer_1_rn.w))
  let path_1 ← sc.refinenet1.apply path_2 (some layer_1_rn) none
  some (path_4, path_3, path_2, path_1)

/-- Body of `DPTHead.forward` once the feature list has been unpacked into
exactly four entries (`layer_1, layer_2, layer_3, layer_4 = out`): the
four-entry loop, the scratch reductions, the fusion chain, and the
unconditional depth output head (`output_conv1`, bilinear resize to
`(patch_h * 14, patch_w * 14)`, `output_conv2`); accessing an output-head
attribute that `__init__` did not create fails. -/
noncomputable def forwardFour (head : DPTHead) (f1 f2 f3 f4 : Tokens × ClsToken)
    (patch_h patch_w : Nat) : Option Tensor := do
  let layer_1 ← processOne head 0 f1 patch_h patch_w
  let layer_2 ← processOne head 1 f2 patch_h patch_w
  let layer_3 ← processOne head 2 f3 patch_h patch_w
  let layer_4 ← processOne head 3 f4 patch_h patch_w
  let layer_1_rn ← head.scratch.layer1_rn.apply layer_1
  let layer_2_rn ← head.scratch.layer2_rn.apply layer_2
  let layer_3_rn ← head.scratch.layer3_rn.apply layer_3
  let layer_4_rn ← head.scratch.layer4_rn.apply layer_4
  let paths ← fusionChain head.scratch layer_1_rn layer_2_rn layer_3_rn
    layer_4_rn
  let path_1 := paths.2.2.2
  let oc1 ← head.scratch.output_conv1
  let out ← oc1.apply path_1
  let out := out.bilinearAC (patch_h * 14) (patch_w * 14)
  let oc2 ← head.scratch.output_conv2
  oc2.apply out

/-- Embedding of `DPTHead.forward(out_features, patch_h, patch_w)`: the
tuple unpacking `layer_1, layer_2, layer_3, layer_4 = out` fails unless the
feature list has exactly four entries. -/
noncomputable def DPTHead.forward (head : DPTHead)
    (out_features : List (Tokens × ClsToken)) (patch_h patch_w : Nat) :
    Option Tensor :=
  match out_features with
  | [f1, f2, f3, f4] => forwardFour head f1 f2 f3 f4 patch_h patch_w
  | _ => none

/-- The six encoder variant names accepted by `DPT_DINOv2.__init__`
(`assert encoder in [...]`). -/
inductive Encoder where
  | v2_vits
  | vits
  | v2_vitb
  | vitb
  | v2_vitl
  | vitl

/-- Selection of backbone layers: a count (v1 variants: the last `n` layers)
or an explicit index list (v2 variants). -/
inductive LayerSel where
  | count (n : Nat)
  | indices (l : List Nat)

/-- Resolve a layer selection to concrete indices given the backbone depth. -/
def LayerSel.toList (depth : Nat) : LayerSel → List Nat
  | .count n => (List.range n).map fun i => depth - n + i
  | .indices l => l

/-- The `_SETTINGS` table of `dpt.py`: fusion feature width, per-layer
projection channel widths, and selected intermediate layers. -/
def SETTINGS : Encoder → Nat × List Nat × LayerSel
  | .v2_vits => (64, [48, 96, 192, 384], .indices [2, 5, 8, 11])
  | .vits => (64, [48, 96, 192, 384], .count 4)
  | .v2_vitb => (128, [96, 192, 384, 768], .indices [2, 5, 8, 11])
  | .vitb => (128, [96, 192, 384, 768], .count 4)
  | .v2_vitl => (256, [256, 512, 1024, 1024], .indices [4, 11, 17, 23])
  | .vitl => (256, [256, 512, 1024, 1024], .count 4)

/-- Modelled from the spec: the DINOv2 backbone (not under `src/`, an
"external collaborator"): "a patch-based transformer that, given an image
tensor of shape (batch, 3, H, W), produces a sequence of per-layer feature
sets", "each consisting of a patch-token grid (batch, num_patches,
embed_dim)" and "a class token (batch, embed_dim)", with patch-grid cell
count `patch_h * patch_w` and patch size 14. -/
structure Backbone where
  embed_dim : Nat
  depth : Nat
  patchTok : Nat → Nat → Nat → Nat → ℝ
  clsTok : Nat → Nat → Nat → ℝ

/-- Modelled from the spec: `get_intermediate_layers(image, layer_indices,
return_class_token=true)` returning an "ordered list of (patch_tokens,
class_token)", one entry per requested layer, every entry with
`(h / 14) * (w / 14)` patch tokens of width `embed_dim`. -/
def getIntermediateLayers (bb : Backbone) (x : Tensor) (idxs : List Nat) :
    List (Tokens × ClsToken) :=
  idxs.map fun i =>
    ({ n := x.n, t := x.h / 14 * (x.w / 14), e := bb.embed_dim,
       data := bb.patchTok i },
     { n := x.n, e := bb.embed_dim, data := bb.clsTok i })

/-- The top-level module `DPT_DINOv2`. -/
structure DPT_DINOv2 where
  intermediate_layer_idx : LayerSel
  metric_depth : Bool
  max_depth : ℝ
  encoder : Encoder
  pretrained : Backbone
  depth_head : DPTHead

/-- Embedding of `DPT_DINOv2.__init__(encoder, use_bn, use_clstoken,
localhub, metric_depth, max_depth)`: looks up `_SETTINGS[encoder]` and builds
the decoder head with `nclass = 1` and `in_channels` equal to the backbone's
embedding width.  The hub loading of the pretrained backbone is replaced by
an injected `Backbone` value. -/
noncomputable def mkDPT_DINOv2 (encoder : Encoder) (use_bn use_clstoken
    metric_depth : Bool) (max_depth : ℝ) (bb : Backbone) (W : HeadWeights) :
    DPT_DINOv2 :=
  { intermediate_layer_idx := (SETTINGS encoder).2.2,
    metric_depth := metric_depth,
    max_depth := max_depth,
    encoder := encoder,
    pretrained := bb,
    depth_head := mkDPTHead 1 bb.embed_dim (SETTINGS encoder).1 use_bn
      (SETTINGS encoder).2.1 use_clstoken metric_depth W }

/-- The conditional resize of `DPT_DINOv2.forward` (source lines 183-184):
bilinear aligned-corners upsampling to `(h, w)` exactly when the decoder
output's spatial size differs from `(h, w)`. -/
noncomputable def resizeStep (depth : Tensor) (h w : Nat) : Tensor :=
  if h ≠ depth.h ∨ w ≠ depth.w then depth.bilinearAC h w else depth

/-- The `squeeze(1)` at the end of `DPT_DINOv2.forward`: drops the channel
dimension when it has extent 1, otherwise returns the tensor unchanged. -/
def squeeze1 (x : Tensor) : Image3 ⊕ Tensor :=
  if x.c = 1 then
    .inl { n := x.n, h := x.h, w := x.w, data := fun b y z => x.data b 0 y z }
  else .inr x

/-- Embedding of `DPT_DINOv2.forward(x)`: backbone feature extraction,
patch-grid geometry `h / 14, w / 14`, decoder head, conditional bilinear
resize to `(h, w)`, metric scaling by `max_depth` or ReLU rectification, and
the final `squeeze(1)`. -/
noncomputable def DPT_DINOv2.forward (m : DPT_DINOv2) (x : Tensor) :
    Option (Image3 ⊕ Tensor) := do
  let h := x.h
  let w := x.w
  let features := getIntermediateLayers m.pretrained x
    (m.intermediate_layer_idx.toList m.pretrained.depth)
  let patch_h := h / 14
  let patch_w := w / 14
  let depth ← m.depth_head.forward features patch_h patch_w
  let depth := resizeStep depth h w
  let depth :=
    if m.metric_depth then depth.map (fun v => v * m.max_depth)
    else reluT depth
  some (squeeze1 depth)

/-- All-zero weights for one fusion block (a concrete weight instance). -/
def FW0 : FusionWeights where
  r1c1w := fun _ _ _ _ => 0
  r1c1b := fun _ => 0
  r1c2w := fun _ _ _ _ => 0
  r1c2b := fun _ => 0
  r2c1w := fun _ _ _ _ => 0
  r2c1b := fun _ => 0
  r2c2w := fun _ _ _ _ => 0
  r2c2b := fun _ => 0
  outw := fun _ _ _ _ => 0
  outb := fun _ => 0
  g1 := fun _ => 0
  b1 := fun _ => 0
  g2 := fun _ => 0
  b2 := fun _ => 0
  g3 := fun _ => 0
  b3 := fun _ => 0
  g4 := fun _ => 0
  b4 := fun _ => 0

/-- All-zero weights for the decoder head (a concrete weight instance). -/
def W0 : HeadWeights where
  projectW := fun _ _ _ _ _ => 0
  projectB := fun _ _ => 0
  resizeW := fun _ _ _ _ _ => 0
  resizeB := fun _ _ => 0
  readoutW := fun _ _ _ => 0
  readoutB := fun _ _ => 0
  scratchW := fun _ _ _ _ _ => 0
  fusion1 := FW0
  fusion2 := FW0
  fusion3 := FW0
  fusion4 := FW0
  segAW := fun _ _ _ _ => 0
  segAB := fun _ => 0
  segBW := fun _ _ _ _ => 0
  segBB := fun _ => 0
  oc1W := fun _ _ _ _ => 0
  oc1B := fun _ => 0
  oc2aW := fun _ _ _ _ => 0
  oc2aB := fun _ => 0
  oc2bW := fun _ _ _ _ => 0
  oc2bB := fun _ => 0

/-- A concrete backbone with embedding width 1 and 12 layers. -/
def bb0 : Backbone := ⟨1, 12, fun _ _ _ _ => 0, fun _ _ => 0⟩

/-- A concrete valid input image: batch 1, 3 channels, 14 x 14. -/
def X0 : Tensor := ⟨1, 3, 14, 14, fun _ _ _ _ => 0⟩

/-- A concrete patch-token tensor for a 1 x 1 patch grid. -/
def tok0 : Tokens := ⟨1, 1, 1, fun _ _ _ => 0⟩

/-- A concrete class token matching `tok0`. -/
def cls0 : ClsToken := ⟨1, 1, fun _ _ => 0⟩

/-- A concrete relative-depth model instance. -/
noncomputable def M0 : DPT_DINOv2 :=
  mkDPT_DINOv2 .vits false false false 0 bb0 W0

/-- A concrete metric-depth model instance with `max_depth = 1`. -/
noncomputable def Mmetric : DPT_DINOv2 :=
  mkDPT_DINOv2 .vits false false true 1 bb0 W0

/-- A concrete depth head (`nclass = 1`, tiny widths). -/
noncomputable def headC4 : DPTHead :=
  mkDPTHead 1 1 2 false [1, 1, 1, 1] false false W0

/-- A concrete segmentation-variant head (`nclass = 2`, tiny widths). -/
noncomputable def headSeg : DPTHead :=
  mkDPTHead 2 1 2 false [1, 1, 1, 1] false false W0

/-- A concrete single-channel 1 x 1 feature map. -/
def T11 : Tensor := ⟨1, 1, 1, 1, fun _ _ _ _ => 0⟩

/-- A concrete single-channel 2 x 2 feature map. -/
def T22 : Tensor := ⟨1, 1, 2, 2, fun _ _ _ _ => 0⟩

/-- A concrete width-2 reduced layer at 4 x 4 (finest scale). -/
def L1c : Tensor := ⟨1, 2, 4, 4, fun _ _ _ _ => 0⟩

/-- A concrete width-2 reduced layer at 2 x 2. -/
def L2c : Tensor := ⟨1, 2, 2, 2, fun _ _ _ _ => 0⟩

/-- A concrete width-2 reduced layer at 1 x 1. -/
def L3c : Tensor := ⟨1, 2, 1, 1, fun _ _ _ _ => 0⟩

/-- A concrete width-2 reduced layer at 1 x 1 (coarsest scale). -/
def L4c : Tensor := ⟨1, 2, 1, 1, fun _ _ _ _ => 0⟩

/-- The scratch container of the concrete depth head `headC4`. -/
noncomputable def sc0 : Scratch := headC4.scratch

section Lemmas

@[simp] theorem Tensor.map_n (f : ℝ → ℝ) (x : Tensor) : (x.map f).n = x.n := rfl

@[simp] theorem Tensor.map_c (f : ℝ → ℝ) (x : Tensor) : (x.map f).c = x.c := rfl

@[simp] theorem Tensor.map_h (f : ℝ → ℝ) (x : Tensor) : (x.map f).h = x.h := rfl

@[simp] theorem Tensor.map_w (f : ℝ → ℝ) (x : Tensor) : (x.map f).w = x.w := rfl

@[simp] theorem reluT_n (x : Tensor) : (reluT x).n = x.n := rfl

@[simp] theorem reluT_c (x : Tensor) : (reluT x).c = x.c := rfl

@[simp] theorem reluT_h (x : Tensor) : (reluT x).h = x.h := rfl

@[simp] theorem reluT_w (x : Tensor) : (reluT x).w = x.w := rfl

@[simp] theorem addT_n (x y : Tensor) : (addT x y).n = x.n := rfl

@[simp] theorem addT_c (x y : Tensor) : (addT x y).c = x.c := rfl

@[simp] theorem addT_h (x y : Tensor) : (addT x y).h = x.h := rfl

@[simp] theorem addT_w (x y : Tensor) : (addT x y).w = x.w := rfl

@[simp] theorem affineC_n (g b : Nat → ℝ) (x : Tensor) :
    (affineC g b x).n = x.n := rfl

@[simp] theorem affineC_c (g b : Nat → ℝ) (x : Tensor) :
    (affineC g b x).c = x.c := rfl

@[simp] theorem affineC_h (g b : Nat → ℝ) (x : Tensor) :
    (affineC g b x).h = x.h := rfl

@[simp] theorem affineC_w (g b : Nat → ℝ) (x : Tensor) :
    (affineC g b x).w = x.w := rfl

@[simp] theorem bilinearAC_n (x : Tensor) (oh ow : Nat) :
    (x.bilinearAC oh ow).n = x.n := rfl

@[simp] theorem bilinearAC_c (x : Tensor) (oh ow : Nat) :
    (x.bilinearAC oh ow).c = x.c := rfl

@[simp] theorem bilinearAC_h (x : Tensor) (oh ow : Nat) :
    (x.bilinearAC oh ow).h = oh := rfl

@[simp] theorem bilinearAC_w (x : Tensor) (oh ow : Nat) :
    (x.bilinearAC oh ow).w = ow := rfl

theorem Tensor.shape_def (x : Tensor) : x.shape = (x.n, x.c, x.h, x.w) := rfl

/-- A convolution whose guards pass returns a tensor of the computed shape. -/
theorem conv_apply_some (cv : Conv2d) (x : Tensor) (h1 : x.c = cv.inC)
    (h2 : cv.kernel ≤ x.h + 2 * cv.padding)
    (h3 : cv.kernel ≤ x.w + 2 * cv.padding) (h4 : 0 < cv.stride) :
    ∃ y, cv.apply x = some y ∧ y.n = x.n ∧ y.c = cv.outC ∧
      y.h = cv.outSize x.h ∧ y.w = cv.outSize x.w := by
  unfold Conv2d.apply
  rw [if_pos ⟨h1, h2, h3, h4⟩]
  exact ⟨_, rfl, rfl, rfl, rfl, rfl⟩

/-- A 3x3 stride-1 pad-1 convolution preserves a positive spatial extent. -/
theorem outSize_k3s1p1 (cv : Conv2d) (hk : cv.kernel = 3) (hs : cv.stride = 1)
    (hp : cv.padding = 1) (s : Nat) (h : 1 ≤ s) : cv.outSize s = s := by
  simp only [Conv2d.outSize, hk, hs, hp]
  omega

/-- A 1x1 stride-1 pad-0 convolution preserves a positive spatial extent. -/
theorem outSize_k1s1p0 (cv : Conv2d) (hk : cv.kernel = 1) (hs : cv.stride = 1)
    (hp : cv.padding = 0) (s : Nat) (h : 1 ≤ s) : cv.outSize s = s := by
  simp only [Conv2d.outSize, hk, hs, hp]
  omega

/-- A 3x3 stride-2 pad-1 convolution halves a spatial extent, rounding up. -/
theorem outSize_k3s2p1 (cv : Conv2d) (hk : cv.kernel = 3) (hs : cv.stride = 2)
    (hp : cv.padding = 1) (s : Nat) : cv.outSize s = (s - 1) / 2 + 1 := by
  simp only [Conv2d.outSize, hk, hs, hp]
  omega

/-- A transposed convolution with matching channels always succeeds. -/
theorem convT_apply_some (cv : ConvTranspose2d) (x : Tensor)
    (h1 : x.c = cv.inC) :
    ∃ y, cv.apply x = some y ∧ y.n = x.n ∧ y.c = cv.outC ∧
      y.h = cv.outSize x.h ∧ y.w = cv.outSize x.w := by
  unfold ConvTranspose2d.apply
  rw [if_pos h1]
  exact ⟨_, rfl, rfl, rfl, rfl, rfl⟩

/-- A kernel-4 stride-4 transposed convolution multiplies extents by 4. -/
theorem ctOutSize_k4s4 (cv : ConvTranspose2d) (hk : cv.kernel = 4)
    (hs : cv.stride = 4) (s : Nat) : cv.outSize s = 4 * s := by
  simp only [ConvTranspose2d.outSize, hk, hs]
  omega

/-- A kernel-2 stride-2 transposed convolution multiplies extents by 2. -/
theorem ctOutSize_k2s2 (cv : ConvTranspose2d) (hk : cv.kernel = 2)
    (hs : cv.stride = 2) (s : Nat) : cv.outSize s = 2 * s := by
  simp only [ConvTranspose2d.outSize, hk, hs]
  omega

@[simp] theorem bnStep_n (bn : Bool) (g b : Nat → ℝ) (x : Tensor) :
    (bnStep bn g b x).n = x.n := by cases bn <;> rfl

@[simp] theorem bnStep_c (bn : Bool) (g b : Nat → ℝ) (x : Tensor) :
    (bnStep bn g b x).c = x.c := by cases bn <;> rfl

@[simp] theorem bnStep_h (bn : Bool) (g b : Nat → ℝ) (x : Tensor) :
    (bnStep bn g b x).h = x.h := by cases bn <;> rfl

@[simp] theorem bnStep_w (bn : Bool) (g b : Nat → ℝ) (x : Tensor) :
    (bnStep bn g b x).w = x.w := by cases bn <;> rfl

/-- A residual unit with 3x3 stride-1 pad-1 convolutions at width `f`
preserves the shape of a width-`f` input with positive spatial extents. -/
theorem rcu_apply_some (u : ResidualConvUnit) (f : Nat)
    (h11 : u.conv1.inC = f) (h12 : u.conv1.outC = f) (h13 : u.conv1.kernel = 3)
    (h14 : u.conv1.stride = 1) (h15 : u.conv1.padding = 1)
    (h21 : u.conv2.inC = f) (h22 : u.conv2.outC = f) (h23 : u.conv2.kernel = 3)
    (h24 : u.conv2.stride = 1) (h25 : u.conv2.padding = 1)
    (x : Tensor) (hx : x.c = f) (hh : 1 ≤ x.h) (hw : 1 ≤ x.w) :
    ∃ y, u.apply x = some y ∧ y.n = x.n ∧ y.c = x.c ∧ y.h = x.h ∧
      y.w = x.w := by
  obtain ⟨y1, e1, n1, c1, hh1, ww1⟩ :=
    conv_apply_some u.conv1 (reluT x) (by simpa [h11] using hx)
      (by simp only [reluT_h, h13, h15]; omega)
      (by simp only [reluT_w, h13, h15]; omega) (by omega)
  rw [outSize_k3s1p1 u.conv1 h13 h14 h15 _ (by simpa using hh)] at hh1
  rw [outSize_k3s1p1 u.conv1 h13 h14 h15 _ (by simpa using hw)] at ww1
  simp only [reluT_n, reluT_c, reluT_h, reluT_w] at n1 c1 hh1 ww1
  obtain ⟨y2, e2, n2, c2, hh2, ww2⟩ :=
    conv_apply_some u.conv2 (reluT (bnStep u.bn u.gamma1 u.beta1 y1))
      (by simp only [reluT_c, bnStep_c, c1, h12, h21])
      (by simp only [reluT_h, bnStep_h, hh1, h23, h25]; omega)
      (by simp only [reluT_w, bnStep_w, ww1, h23, h25]; omega) (by omega)
  rw [outSize_k3s1p1 u.conv2 h23 h24 h25 _
      (by simp only [reluT_h, bnStep_h, hh1]; exact hh)] at hh2
  rw [outSize_k3s1p1 u.conv2 h23 h24 h25 _
      (by simp only [reluT_w, bnStep_w, ww1]; exact hw)] at ww2
  simp only [reluT_n, reluT_c, reluT_h, reluT_w, bnStep_n, bnStep_h,
    bnStep_w, n1, hh1, ww1] at n2 hh2 ww2
  have hsh : x.shape = (bnStep u.bn u.gamma2 u.beta2 y2).shape := by
    rw [Tensor.shape_def, Tensor.shape_def]
    simp only [bnStep_n, bnStep_c, bnStep_h, bnStep_w, n2, c2, hh2, ww2,
      h22, hx]
  refine ⟨addT (bnStep u.bn u.gamma2 u.beta2 y2) x, ?_, by simp [n2],
    by simp [c2, h22, hx], by simp [hh2], by simp [ww2]⟩
  unfold ResidualConvUnit.apply
  rw [e1]
  simp only [Option.bind_eq_bind, Option.some_bind]
  rw [e2]
  simp only [Option.bind_eq_bind, Option.some_bind]
  rw [if_pos hsh]

@[simp] theorem resizeOpt_n (out : Tensor) (size : Option (Nat × Nat)) :
    (resizeOpt out size).n = out.n := by
  rcases size with _ | ⟨sh, sw⟩ <;> rfl

@[simp] theorem resizeOpt_c (out : Tensor) (size : Option (Nat × Nat)) :
    (resizeOpt out size).c = out.c := by
  rcases size with _ | ⟨sh, sw⟩ <;> rfl

theorem resizeOpt_h (out : Tensor) (size : Option (Nat × Nat)) :
    (resizeOpt out size).h = (size.getD (out.h, out.w)).1 := by
  rcases size with _ | ⟨sh, sw⟩ <;> rfl

theorem resizeOpt_w (out : Tensor) (size : Option (Nat × Nat)) :
    (resizeOpt out size).w = (size.getD (out.h, out.w)).2 := by
  rcases size with _ | ⟨sh, sw⟩ <;> rfl

/-- Shape behaviour of the spec-modelled fusion block built by
`mkFusionBlock`: the output has the fusion width `f` and the requested
spatial size (the input size when no size is requested). -/
theorem mkFusionBlock_apply (f : Nat) (bn : Bool) (Wf : FusionWeights)
    (x : Tensor) (res : Option Tensor) (size : Option (Nat × Nat))
    (hx : x.c = f) (hh : 1 ≤ x.h) (hw : 1 ≤ x.w)
    (hres : ∀ r, res = some r → r.n = x.n ∧ r.c = f ∧ r.h = x.h ∧ r.w = x.w)
    (hsz : ∀ sh sw, size = some (sh, sw) → 1 ≤ sh ∧ 1 ≤ sw) :
    ∃ y, (mkFusionBlock f bn Wf).apply x res size = some y ∧ y.n = x.n ∧
      y.c = f ∧ y.h = (size.getD (x.h, x.w)).1 ∧
      y.w = (size.getD (x.h, x.w)).2 := by
  obtain ⟨o1, e1, on1, oc1, oh1, ow1⟩ :
      ∃ o, combineRes (mkFusionBlock f bn Wf) x res = some o ∧ o.n = x.n ∧
        o.c = x.c ∧ o.h = x.h ∧ o.w = x.w := by
    rcases res with _ | r
    · exact ⟨x, rfl, rfl, rfl, rfl, rfl⟩
    · obtain ⟨hrn, hrc, hrh, hrw⟩ := hres r rfl
      obtain ⟨r2, er, rn2, rc2, rh2, rw2⟩ :=
        rcu_apply_some (mkFusionBlock f bn Wf).resConfUnit1 f
          rfl rfl rfl rfl rfl rfl rfl rfl rfl rfl r hrc
          (by rw [hrh]; exact hh) (by rw [hrw]; exact hw)
      have hshape : x.shape = r2.shape := by
        rw [Tensor.shape_def, Tensor.shape_def, rn2, rc2, rh2, rw2, hrn,
          hrc, hrh, hrw, hx]
      refine ⟨addT x r2, ?_, rfl, rfl, rfl, rfl⟩
      simp only [combineRes]
      rw [er]
      simp only [Option.bind_eq_bind, Option.some_bind]
      rw [if_pos hshape]
  obtain ⟨y2, e2, n2, c2, h2, w2⟩ :=
    rcu_apply_some (mkFusionBlock f bn Wf).resConfUnit2 f
      rfl rfl rfl rfl rfl rfl rfl rfl rfl rfl o1 (oc1.trans hx)
      (by rw [oh1]; exact hh) (by rw [ow1]; exact hw)
  have hrh : 1 ≤ (resizeOpt y2 size).h := by
    rcases size with _ | ⟨sh, sw⟩
    · show 1 ≤ y2.h
      rw [h2, oh1]; exact hh
    · exact (hsz sh sw rfl).1
  have hrw : 1 ≤ (resizeOpt y2 size).w := by
    rcases size with _ | ⟨sh, sw⟩
    · show 1 ≤ y2.w
      rw [w2, ow1]; exact hw
    · exact (hsz sh sw rfl).2
  obtain ⟨y3, e3, n3, c3, h3, w3⟩ :=
    conv_apply_some (mkFusionBlock f bn Wf).outConv (resizeOpt y2 size)
      (by simp only [resizeOpt_c, c2, oc1, hx]; rfl)
      (by show (1 : Nat) ≤ (resizeOpt y2 size).h + 2 * 0; omega)
      (by show (1 : Nat) ≤ (resizeOpt y2 size).w + 2 * 0; omega)
      (by show (0 : Nat) < 1; omega)
  rw [outSize_k1s1p0 _ rfl rfl rfl _ hrh] at h3
  rw [outSize_k1s1p0 _ rfl rfl rfl _ hrw] at w3
  refine ⟨y3, ?_, ?_, c3, ?_, ?_⟩
  · unfold FeatureFusionBlock.apply
    rw [e1]
    simp only [Option.bind_eq_bind, Option.some_bind]
    rw [e2]
    simp only [Option.bind_eq_bind, Option.some_bind]
    exact e3
  · rw [n3, resizeOpt_n, n2, on1]
  · rw [h3, resizeOpt_h, h2, oh1, w2, ow1]
  · rw [w3, resizeOpt_w, h2, oh1, w2, ow1]

/-- Shape behaviour of the fusion chain: each path matches the spatial size
of the next finer reduced layer, and the last stage performs no further
resize. -/
theorem fusionChain_some (f : Nat) (bn : Bool) (W1 W2 W3 W4 : FusionWeights)
    (b : Nat) (sc : Scratch) (l1 l2 l3 l4 : Tensor)
    (h1 : sc.refinenet1 = mkFusionBlock f bn W1)
    (h2 : sc.refinenet2 = mkFusionBlock f bn W2)
    (h3 : sc.refinenet3 = mkFusionBlock f bn W3)
    (h4 : sc.refinenet4 = mkFusionBlock f bn W4)
    (hl1 : l1.n = b ∧ l1.c = f ∧ 1 ≤ l1.h ∧ 1 ≤ l1.w)
    (hl2 : l2.n = b ∧ l2.c = f ∧ 1 ≤ l2.h ∧ 1 ≤ l2.w)
    (hl3 : l3.n = b ∧ l3.c = f ∧ 1 ≤ l3.h ∧ 1 ≤ l3.w)
    (hl4 : l4.n = b ∧ l4.c = f ∧ 1 ≤ l4.h ∧ 1 ≤ l4.w) :
    ∃ p4 p3 p2 p1, fusionChain sc l1 l2 l3 l4 = some (p4, p3, p2, p1) ∧
      p4.n = b ∧ p4.c = f ∧ p4.h = l3.h ∧ p4.w = l3.w ∧
      p3.n = b ∧ p3.c = f ∧ p3.h = l2.h ∧ p3.w = l2.w ∧
      p2.n = b ∧ p2.c = f ∧ p2.h = l1.h ∧ p2.w = l1.w ∧
      p1.n = b ∧ p1.c = f ∧ p1.h = p2.h ∧ p1.w = p2.w := by
  obtain ⟨p4, e4, pn4, pc4, ph4, pw4⟩ :=
    mkFusionBlock_apply f bn W4 l4 none (some (l3.h, l3.w)) hl4.2.1
      hl4.2.2.1 hl4.2.2.2 (fun r hr => nomatch hr)
      (fun sh sw hs => by
        injection hs with hp
        rw [Prod.mk.injEq] at hp
        exact ⟨hp.1 ▸ hl3.2.2.1, hp.2 ▸ hl3.2.2.2⟩)
  simp only [Option.getD_some] at ph4 pw4
  have pn4b : p4.n = b := pn4.trans hl4.1
  obtain ⟨p3, e3, pn3, pc3, ph3, pw3⟩ :=
    mkFusionBlock_apply f bn W3 p4 (some l3) (some (l2.h, l2.w)) pc4
      (by rw [ph4]; exact hl3.2.2.1) (by rw [pw4]; exact hl3.2.2.2)
      (fun r hr => by
        injection hr with hp
        exact hp ▸ ⟨hl3.1.trans pn4b.symm, hl3.2.1, ph4.symm, pw4.symm⟩)
      (fun sh sw hs => by
        injection hs with hp
        rw [Prod.mk.injEq] at hp
        exact ⟨hp.1 ▸ hl2.2.2.1, hp.2 ▸ hl2.2.2.2⟩)
  simp only [Option.getD_some] at ph3 pw3
  have pn3b : p3.n = b := pn3.trans pn4b
  obtain ⟨p2, e2, pn2, pc2, ph2, pw2⟩ :=
    mkFusionBlock_apply f bn W2 p3 (some l2) (some (l1.h, l1.w)) pc3
      (by rw [ph3]; exact hl2.2.2.1) (by rw [pw3]; exact hl2.2.2.2)
      (fun r hr => by
        injection hr with hp
        exact hp ▸ ⟨hl2.1.trans pn3b.symm, hl2.2.1, ph3.symm, pw3.symm⟩)
      (fun sh sw hs => by
        injection hs with hp
        rw [Prod.mk.injEq] at hp
        exact ⟨hp.1 ▸ hl1.2.2.1, hp.2 ▸ hl1.2.2.2⟩)
  simp only [Option.getD_some] at ph2 pw2
  have pn2b : p2.n = b := pn2.trans pn3b
  obtain ⟨p1, e1, pn1, pc1, ph1, pw1⟩ :=
    mkFusionBlock_apply f bn W1 p2 (some l1) none pc2
      (by rw [ph2]; exact hl1.2.2.1) (by rw [pw2]; exact hl1.2.2.2)
      (fun r hr => by
        injection hr with hp
        exact hp ▸ ⟨hl1.1.trans pn2b.symm, hl1.2.1, ph2.symm, pw2.symm⟩)
      (fun sh sw hs => nomatch hs)
  simp only [Option.getD_none] at ph1 pw1
  have pn1b : p1.n = b := pn1.trans pn2b
  refine ⟨p4, p3, p2, p1, ?_, pn4b, pc4, ph4, pw4, pn3b, pc3, ph3, pw3,
    pn2b, pc2, ph2, pw2, pn1b, pc1, ph1, pw1⟩
  unfold fusionChain
  rw [h4, e4]
  simp only [Option.bind_eq_bind, Option.some_bind]
  rw [h3, e3]
  simp only [Option.bind_eq_bind, Option.some_bind]
  rw [h2, e2]
  simp only [Option.bind_eq_bind, Option.some_bind]
  rw [h1, e1]
  simp only [Option.bind_eq_bind, Option.some_bind]

@[simp] theorem tokensMap_n (f : ℝ → ℝ) (x : Tokens) : (x.map f).n = x.n := rfl

@[simp] theorem tokensMap_t (f : ℝ → ℝ) (x : Tokens) : (x.map f).t = x.t := rfl

@[simp] theorem tokensMap_e (f : ℝ → ℝ) (x : Tokens) : (x.map f).e = x.e := rfl

/-- The readout stage returns a well-shaped token tensor for a well-shaped
entry, in both the class-token and the plain branch. -/
theorem readoutStage_some (nclass E f : Nat) (bn clst md : Bool)
    (oc : List Nat) (W : HeadWeights) (i b np : Nat)
    (entry : Tokens × ClsToken)
    (hn : entry.1.n = b) (ht : entry.1.t = np) (he : entry.1.e = E)
    (hcn : entry.2.n = b) (hce : entry.2.e = E) :
    ∃ x, readoutStage (mkDPTHead nclass E f bn oc clst md W) i entry =
        some x ∧ x.n = b ∧ x.t = np ∧ x.e = E := by
  have hg : entry.2.n = entry.1.n ∧ entry.2.e = entry.1.e :=
    ⟨hcn.trans hn.symm, hce.trans he.symm⟩
  cases clst
  · refine ⟨entry.1, ?_, hn, ht, he⟩
    have hcl : (mkDPTHead nclass E f bn oc false md W).use_clstoken = false :=
      rfl
    unfold readoutStage
    rw [hcl]
    simp
  · have hcl : (mkDPTHead nclass E f bn oc true md W).use_clstoken = true :=
      rfl
    have hrp : (mkDPTHead nclass E f bn oc true md W).readout_projects =
        some (fun j =>
          { inF := 2 * E, outF := E, weight := W.readoutW j,
            bias := W.readoutB j }) := rfl
    obtain ⟨y, ey, yn, yt, ye⟩ :
        ∃ y, Linear.apply
            { inF := 2 * E, outF := E, weight := W.readoutW i,
              bias := W.readoutB i } (catReadout entry.1 entry.2) = some y ∧
          y.n = b ∧ y.t = np ∧ y.e = E := by
      unfold Linear.apply
      rw [if_pos (show (catReadout entry.1 entry.2).e = 2 * E by
        show 2 * entry.1.e = 2 * E
        rw [he])]
      exact ⟨_, rfl, hn, ht, rfl⟩
    refine ⟨y.map gelu, ?_, by simp [yn], by simp [yt], by simp [ye]⟩
    unfold readoutStage
    rw [hcl]
    simp only [if_pos rfl]
    rw [if_pos hg, hrp]
    simp only [Option.bind_eq_bind, Option.some_bind]
    rw [ey]
    simp only [Option.bind_eq_bind, Option.some_bind]
    simp

/-- The per-entry loop body reduces to the per-layer resampler applied to a
projected grid of shape (batch, out_channels[i], patch_h, patch_w). -/
theorem processOne_resize (nclass E f : Nat) (bn clst md : Bool)
    (oc : List Nat) (W : HeadWeights) (i b ph pw : Nat)
    (entry : Tokens × ClsToken) (hph : 1 ≤ ph) (hpw : 1 ≤ pw)
    (hn : entry.1.n = b) (ht : entry.1.t = ph * pw) (he : entry.1.e = E)
    (hcn : entry.2.n = b) (hce : entry.2.e = E) :
    ∃ g, g.n = b ∧ g.c = oc.getD i 0 ∧ g.h = ph ∧ g.w = pw ∧
      processOne (mkDPTHead nclass E f bn oc clst md W) i entry ph pw =
        ((mkDPTHead nclass E f bn oc clst md W).resize_layers i).apply g := by
  obtain ⟨x, ex, xn, xt, xe⟩ := readoutStage_some nclass E f bn clst md oc W
    i b (ph * pw) entry hn ht he hcn hce
  have hproj : (mkDPTHead nclass E f bn oc clst md W).projects i =
      mkConv E (oc.getD i 0) 1 1 0 (W.projectW i) (W.projectB i) := rfl
  obtain ⟨g, eg, gn, gc, gh, gw⟩ :=
    conv_apply_some
      (mkConv E (oc.getD i 0) 1 1 0 (W.projectW i) (W.projectB i))
      { n := x.n, c := x.e, h := ph, w := pw,
        data := fun bb e y z => x.data bb (y * pw + z) e }
      (by show x.e = E; exact xe) (by show (1 : Nat) ≤ ph + 2 * 0; omega)
      (by show (1 : Nat) ≤ pw + 2 * 0; omega) (by show (0 : Nat) < 1; omega)
  rw [outSize_k1s1p0 _ rfl rfl rfl ph hph] at gh
  rw [outSize_k1s1p0 _ rfl rfl rfl pw hpw] at gw
  refine ⟨g, gn.trans xn, gc, gh, gw, ?_⟩
  unfold processOne
  rw [ex]
  simp only [Option.bind_eq_bind, Option.some_bind]
  rw [if_pos (show x.n * x.t * x.e = x.n * x.e * (ph * pw) by rw [xt]; ring)]
  rw [hproj, eg]
  simp only [Option.bind_eq_bind, Option.some_bind]

/-- Shape and final-activation behaviour of `DPTHead.forward` for an
`nclass = 1` head on a well-shaped four-entry feature list: one channel,
spatial size `(14 * patch_h, 14 * patch_w)`, and every value an output of the
mode-selected final activation. -/
theorem headForward_some (E f : Nat) (bn clst md : Bool) (oc : List Nat)
    (W : HeadWeights) (b ph pw : Nat) (hph : 1 ≤ ph) (hpw : 1 ≤ pw)
    (f1 f2 f3 f4 : Tokens × ClsToken)
    (h1 : f1.1.n = b ∧ f1.1.t = ph * pw ∧ f1.1.e = E ∧ f1.2.n = b ∧
      f1.2.e = E)
    (h2 : f2.1.n = b ∧ f2.1.t = ph * pw ∧ f2.1.e = E ∧ f2.2.n = b ∧
      f2.2.e = E)
    (h3 : f3.1.n = b ∧ f3.1.t = ph * pw ∧ f3.1.e = E ∧ f3.2.n = b ∧
      f3.2.e = E)
    (h4 : f4.1.n = b ∧ f4.1.t = ph * pw ∧ f4.1.e = E ∧ f4.2.n = b ∧
      f4.2.e = E) :
    ∃ y, (mkDPTHead 1 E f bn oc clst md W).forward [f1, f2, f3, f4] ph pw =
        some y ∧ y.n = b ∧ y.c = 1 ∧ y.h = ph * 14 ∧ y.w = pw * 14 ∧
      ∀ bi ci yi zi, ∃ v, y.data bi ci yi zi =
        (if md = true then sigmoid else relu) v := by
  obtain ⟨g0, gn0, gc0, gh0, gw0, ep0⟩ := processOne_resize 1 E f bn clst md
    oc W 0 b ph pw f1 hph hpw h1.1 h1.2.1 h1.2.2.1 h1.2.2.2.1 h1.2.2.2.2
  obtain ⟨g1, gn1, gc1, gh1, gw1, ep1⟩ := processOne_resize 1 E f bn clst md
    oc W 1 b ph pw f2 hph hpw h2.1 h2.2.1 h2.2.2.1 h2.2.2.2.1 h2.2.2.2.2
  obtain ⟨g2, gn2, gc2, gh2, gw2, ep2⟩ := processOne_resize 1 E f bn clst md
    oc W 2 b ph pw f3 hph hpw h3.1 h3.2.1 h3.2.2.1 h3.2.2.2.1 h3.2.2.2.2
  obtain ⟨g3, gn3, gc3, gh3, gw3, ep3⟩ := processOne_resize 1 E f bn clst md
    oc W 3 b ph pw f4 hph hpw h4.1 h4.2.1 h4.2.2.1 h4.2.2.2.1 h4.2.2.2.2
  have hr0 : (mkDPTHead 1 E f bn oc clst md W).resize_layers 0 =
      .convTranspose
        { inC := oc.getD 0 0, outC := oc.getD 0 0, kernel := 4, stride := 4,
          weight := W.resizeW 0, bias := W.resizeB 0 } := rfl
  have hr1 : (mkDPTHead 1 E f bn oc clst md W).resize_layers 1 =
      .convTranspose
        { inC := oc.getD 1 0, outC := oc.getD 1 0, kernel := 2, stride := 2,
          weight := W.resizeW 1, bias := W.resizeB 1 } := rfl
  have hr2 : (mkDPTHead 1 E f bn oc clst md W).resize_layers 2 =
      .identity := rfl
  have hr3 : (mkDPTHead 1 E f bn oc clst md W).resize_layers 3 =
      .conv (mkConv (oc.getD 3 0) (oc.getD 3 0) 3 2 1 (W.resizeW 3)
        (W.resizeB 3)) := rfl
  obtain ⟨L1, eL1, Ln1, Lc1, Lh1, Lw1⟩ :=
    convT_apply_some
      { inC := oc.getD 0 0, outC := oc.getD 0 0, kernel := 4, stride := 4,
        weight := W.resizeW 0, bias := W.resizeB 0 } g0 gc0
  rw [ctOutSize_k4s4 _ rfl rfl, gh0] at Lh1
  rw [ctOutSize_k4s4 _ rfl rfl, gw0] at Lw1
  obtain ⟨L2, eL2, Ln2, Lc2, Lh2, Lw2⟩ :=
    convT_apply_some
      { inC := oc.getD 1 0, outC := oc.getD 1 0, kernel := 2, stride := 2,
        weight := W.resizeW 1, bias := W.resizeB 1 } g1 gc1
  rw [ctOutSize_k2s2 _ rfl rfl, gh1] at Lh2
  rw [ctOutSize_k2s2 _ rfl rfl, gw1] at Lw2
  obtain ⟨L4, eL4, Ln4, Lc4, Lh4, Lw4⟩ :=
    conv_apply_some
      (mkConv (oc.getD 3 0) (oc.getD 3 0) 3 2 1 (W.resizeW 3) (W.resizeB 3))
      g3 gc3 (by show (3 : Nat) ≤ g3.h + 2 * 1; omega)
      (by show (3 : Nat) ≤ g3.w + 2 * 1; omega) (by show (0 : Nat) < 2; omega)
  rw [outSize_k3s2p1 _ rfl rfl rfl, gh3] at Lh4
  rw [outSize_k3s2p1 _ rfl rfl rfl, gw3] at Lw4
  have hs1 : (mkDPTHead 1 E f bn oc clst md W).scratch.layer1_rn =
      mkConv (oc.getD 0 0) f 3 1 1 (W.scratchW 0) (fun _ => 0) := rfl
  have hs2 : (mkDPTHead 1 E f bn oc clst md W).scratch.layer2_rn =
      mkConv (oc.getD 1 0) f 3 1 1 (W.scratchW 1) (fun _ => 0) := rfl
  have hs3 : (mkDPTHead 1 E f bn oc clst md W).scratch.layer3_rn =
      mkConv (oc.getD 2 0) f 3 1 1 (W.scratchW 2) (fun _ => 0) := rfl
  have hs4 : (mkDPTHead 1 E f bn oc clst md W).scratch.layer4_rn =
      mkConv (oc.getD 3 0) f 3 1 1 (W.scratchW 3) (fun _ => 0) := rfl
  obtain ⟨R1, eR1, Rn1, Rc1, Rh1, Rw1⟩ :=
    conv_apply_some (mkConv (oc.getD 0 0) f 3 1 1 (W.scratchW 0)
      (fun _ => 0)) L1 Lc1 (by show (3 : Nat) ≤ L1.h + 2 * 1; omega)
      (by show (3 : Nat) ≤ L1.w + 2 * 1; omega) (by show (0 : Nat) < 1; omega)
  rw [outSize_k3s1p1 _ rfl rfl rfl _ (by rw [Lh1]; omega)] at Rh1
  rw [outSize_k3s1p1 _ rfl rfl rfl _ (by rw [Lw1]; omega)] at Rw1
  rw [Lh1] at Rh1
  rw [Lw1] at Rw1
  obtain ⟨R2, eR2, Rn2, Rc2, Rh2, Rw2⟩ :=
    conv_apply_some (mkConv (oc.getD 1 0) f 3 1 1 (W.scratchW 1)
      (fun _ => 0)) L2 Lc2 (by show (3 : Nat) ≤ L2.h + 2 * 1; omega)
      (by show (3 : Nat) ≤ L2.w + 2 * 1; omega) (by show (0 : Nat) < 1; omega)
  rw [outSize_k3s1p1 _ rfl rfl rfl _ (by rw [Lh2]; omega)] at Rh2
  rw [outSize_k3s1p1 _ rfl rfl rfl _ (by rw [Lw2]; omega)] at Rw2
  rw [Lh2] at Rh2
  rw [Lw2] at Rw2
  obtain ⟨R3, eR3, Rn3, Rc3, Rh3, Rw3⟩ :=
    conv_apply_some (mkConv (oc.getD 2 0) f 3 1 1 (W.scratchW 2)
      (fun _ => 0)) g2 gc2 (by show (3 : Nat) ≤ g2.h + 2 * 1; omega)
      (by show (3 : Nat) ≤ g2.w + 2 * 1; omega) (by show (0 : Nat) < 1; omega)
  rw [outSize_k3s1p1 _ rfl rfl rfl _ (by rw [gh2]; omega)] at Rh3
  rw [outSize_k3s1p1 _ rfl rfl rfl _ (by rw [gw2]; omega)] at Rw3
  rw [gh2] at Rh3
  rw [gw2] at Rw3
  obtain ⟨R4, eR4, Rn4, Rc4, Rh4, Rw4⟩ :=
    conv_apply_some (mkConv (oc.getD 3 0) f 3 1 1 (W.scratchW 3)
      (fun _ => 0)) L4 Lc4 (by show (3 : Nat) ≤ L4.h + 2 * 1; omega)
      (by show (3 : Nat) ≤ L4.w + 2 * 1; omega) (by show (0 : Nat) < 1; omega)
  rw [outSize_k3s1p1 _ rfl rfl rfl _ (by rw [Lh4]; omega)] at Rh4
  rw [outSize_k3s1p1 _ rfl rfl rfl _ (by rw [Lw4]; omega)] at Rw4
  rw [Lh4] at Rh4
  rw [Lw4] at Rw4
  obtain ⟨p4, p3, p2, p1, eChain, pn4, pc4, ph4, pw4, pn3, pc3, ph3, pw3,
    pn2, pc2, ph2, pw2, pn1, pc1, ph1, pw1⟩ :=
    fusionChain_some f bn W.fusion1 W.fusion2 W.fusion3 W.fusion4 b
      (mkDPTHead 1 E f bn oc clst md W).scratch R1 R2 R3 R4 rfl rfl rfl rfl
      ⟨Rn1.trans (Ln1.trans gn0), Rc1, by rw [Rh1]; omega, by rw [Rw1]; omega⟩
      ⟨Rn2.trans (Ln2.trans gn1), Rc2, by rw [Rh2]; omega, by rw [Rw2]; omega⟩
      ⟨Rn3.trans gn2, Rc3, by rw [Rh3]; omega, by rw [Rw3]; omega⟩
      ⟨Rn4.trans (Ln4.trans gn3), Rc4, by rw [Rh4]; omega, by rw [Rw4]; omega⟩
  have houtc1 : (mkDPTHead 1 E f bn oc clst md W).scratch.output_conv1 =
      some (mkConv f (f / 2) 3 1 1 W.oc1W W.oc1B) := rfl
  have houtc2 : (mkDPTHead 1 E f bn oc clst md W).scratch.output_conv2 =
      some { convA := mkConv (f / 2) 32 3 1 1 W.oc2aW W.oc2aB,
             convB := mkConv 32 1 1 1 0 W.oc2bW W.oc2bB,
             act := if md then sigmoid else relu } := rfl
  have hp1h : 1 ≤ p1.h := by rw [ph1, ph2, Rh1]; omega
  have hp1w : 1 ≤ p1.w := by rw [pw1, pw2, Rw1]; omega
  obtain ⟨O1, eO1, On1, Oc1, Oh1, Ow1⟩ :=
    conv_apply_some (mkConv f (f / 2) 3 1 1 W.oc1W W.oc1B) p1 pc1
      (by show (3 : Nat) ≤ p1.h + 2 * 1; omega)
      (by show (3 : Nat) ≤ p1.w + 2 * 1; omega) (by show (0 : Nat) < 1; omega)
  rw [outSize_k3s1p1 _ rfl rfl rfl _ hp1h] at Oh1
  rw [outSize_k3s1p1 _ rfl rfl rfl _ hp1w] at Ow1
  obtain ⟨A, eA, An, Ac, Ah, Aw⟩ :=
    conv_apply_some (mkConv (f / 2) 32 3 1 1 W.oc2aW W.oc2aB)
      (O1.bilinearAC (ph * 14) (pw * 14))
      (by show (O1.bilinearAC (ph * 14) (pw * 14)).c = f / 2
          rw [bilinearAC_c, Oc1]
          exact rfl)
      (by show (3 : Nat) ≤ (O1.bilinearAC (ph * 14) (pw * 14)).h + 2 * 1
          rw [bilinearAC_h]; omega)
      (by show (3 : Nat) ≤ (O1.bilinearAC (ph * 14) (pw * 14)).w + 2 * 1
          rw [bilinearAC_w]; omega) (by show (0 : Nat) < 1; omega)
  simp only [bilinearAC_n, bilinearAC_h, bilinearAC_w] at An Ah Aw
  rw [outSize_k3s1p1 _ rfl rfl rfl _ (by omega)] at Ah
  rw [outSize_k3s1p1 _ rfl rfl rfl _ (by omega)] at Aw
  obtain ⟨Z, eZ, Zn, Zc, Zh, Zw⟩ :=
    conv_apply_some (mkConv 32 1 1 1 0 W.oc2bW W.oc2bB) (reluT A)
      (by show A.c = 32; exact Ac)
      (by show (1 : Nat) ≤ A.h + 2 * 0; omega)
      (by show (1 : Nat) ≤ A.w + 2 * 0; omega) (by show (0 : Nat) < 1; omega)
  simp only [reluT_n, reluT_c, reluT_h, reluT_w] at Zn Zh Zw
  rw [outSize_k1s1p0 _ rfl rfl rfl _ (by omega), Ah] at Zh
  rw [outSize_k1s1p0 _ rfl rfl rfl _ (by omega), Aw] at Zw
  refine ⟨Z.map (if md then sigmoid else relu), ?_, ?_,
    by simp only [Tensor.map_c, Zc]; rfl, ?_, ?_, ?_⟩
  · show forwardFour (mkDPTHead 1 E f bn oc clst md W) f1 f2 f3 f4 ph pw = _
    unfold forwardFour
    rw [ep0, hr0]
    simp only [ResizeOp.apply]
    rw [eL1]
    simp only [Option.bind_eq_bind, Option.some_bind]
    rw [ep1, hr1]
    simp only [ResizeOp.apply]
    rw [eL2]
    simp only [Option.bind_eq_bind, Option.some_bind]
    rw [ep2, hr2]
    simp only [ResizeOp.apply, Option.bind_eq_bind, Option.some_bind]
    rw [ep3, hr3]
    simp only [ResizeOp.apply]
    rw [eL4]
    simp only [Option.bind_eq_bind, Option.some_bind]
    rw [hs1, eR1]
    simp only [Option.bind_eq_bind, Option.some_bind]
    rw [hs2, eR2]
    simp only [Option.bind_eq_bind, Option.some_bind]
    rw [hs3, eR3]
    simp only [Option.bind_eq_bind, Option.some_bind]
    rw [hs4, eR4]
    simp only [Option.bind_eq_bind, Option.some_bind]
    rw [eChain]
    simp only [Option.bind_eq_bind, Option.some_bind]
    rw [houtc1]
    simp only [Option.bind_eq_bind, Option.some_bind]
    rw [eO1]
    simp only [Option.bind_eq_bind, Option.some_bind]
    rw [houtc2]
    simp only [Option.bind_eq_bind, Option.some_bind]
    unfold OutputConv2.apply
    dsimp only
    rw [eA]
    simp only [Option.bind_eq_bind, Option.some_bind]
    rw [eZ]
    simp only [Option.bind_eq_bind, Option.some_bind]
  · simp only [Tensor.map_n]
    rw [Zn, An, On1, pn1]
  · simp only [Tensor.map_h]
    rw [Zh]
  · simp only [Tensor.map_w]
    rw [Zw]
  · intro bi ci yi zi
    refine ⟨Z.data bi ci yi zi, ?_⟩
    cases md <;> rfl

/-- The rectifier is idempotent. -/
theorem relu_relu (v : ℝ) : relu (relu v) = relu v := by
  unfold relu
  rw [max_assoc, max_self]

/-- When the decoder output already has the requested spatial size, the
conditional resize is a no-op. -/
theorem resizeStep_eq_self (d : Tensor) (h w : Nat) (hh : d.h = h)
    (hw : d.w = w) : resizeStep d h w = d := by
  unfold resizeStep
  rw [if_neg]
  intro hc
  exact hc.elim (fun hne => hne hh.symm) (fun hne => hne hw.symm)

/-- When the decoder output size differs from the requested one, the
conditional resize bilinearly interpolates. -/
theorem resizeStep_eq_interp (d : Tensor) (h w : Nat)
    (hne : ¬(d.h = h ∧ d.w = w)) : resizeStep d h w = d.bilinearAC h w := by
  unfold resizeStep
  rw [if_pos (by tauto)]

/-- Every encoder variant selects exactly four intermediate layers. -/
theorem settings_layers_length (enc : Encoder) (d : Nat) :
    ((SETTINGS enc).2.2.toList d).length = 4 := by
  cases enc <;> rfl

/-- Shape and value behaviour of `DPT_DINOv2.forward` on a valid input
(spatial extents positive multiples of 14): the output is a 3D image of the
input's spatial size, and every value is the mode-selected post-processing of
a final-activation output. -/
theorem modelForward_some (enc : Encoder) (bn clst md : Bool) (maxd : ℝ)
    (bb : Backbone) (W : HeadWeights) (x : Tensor)
    (hdh : 14 ∣ x.h) (hdw : 14 ∣ x.w) (hh : 1 ≤ x.h) (hw : 1 ≤ x.w) :
    ∃ (y : Image3) (D : Tensor),
      (mkDPT_DINOv2 enc bn clst md maxd bb W).forward x = some (.inl y) ∧
      y.n = x.n ∧ y.h = x.h ∧ y.w = x.w ∧
      (mkDPTHead 1 bb.embed_dim (SETTINGS enc).1 bn (SETTINGS enc).2.1 clst
          md W).forward
        (getIntermediateLayers bb x ((SETTINGS enc).2.2.toList bb.depth))
        (x.h / 14) (x.w / 14) = some D ∧
      (∀ bi yi zi, y.data bi yi zi =
        (if md = true then (fun v => v * maxd) else relu)
          (D.data bi 0 yi zi)) ∧
      ∀ bi yi zi, ∃ v, y.data bi yi zi =
        if md = true then sigmoid v * maxd else relu v := by
  have hph : 1 ≤ x.h / 14 := by omega
  have hpw : 1 ≤ x.w / 14 := by omega
  obtain ⟨i1, i2, i3, i4, hidx⟩ :
      ∃ i1 i2 i3 i4, (SETTINGS enc).2.2.toList bb.depth = [i1, i2, i3, i4] := by
    have hlen := settings_layers_length enc bb.depth
    rcases hl : (SETTINGS enc).2.2.toList bb.depth with _ | ⟨a, _ | ⟨b, _ |
      ⟨c, _ | ⟨d, _ | rest⟩⟩⟩⟩ <;> rw [hl] at hlen <;> simp at hlen
    exact ⟨a, b, c, d, rfl⟩
  have hfeat : getIntermediateLayers bb x
      ((SETTINGS enc).2.2.toList bb.depth) =
      [(⟨x.n, x.h / 14 * (x.w / 14), bb.embed_dim, bb.patchTok i1⟩,
        ⟨x.n, bb.embed_dim, bb.clsTok i1⟩),
       (⟨x.n, x.h / 14 * (x.w / 14), bb.embed_dim, bb.patchTok i2⟩,
        ⟨x.n, bb.embed_dim, bb.clsTok i2⟩),
       (⟨x.n, x.h / 14 * (x.w / 14), bb.embed_dim, bb.patchTok i3⟩,
        ⟨x.n, bb.embed_dim, bb.clsTok i3⟩),
       (⟨x.n, x.h / 14 * (x.w / 14), bb.embed_dim, bb.patchTok i4⟩,
        ⟨x.n, bb.embed_dim, bb.clsTok i4⟩)] := by
    rw [hidx]
    rfl
  obtain ⟨D, eD, Dn, Dc, Dh, Dw, Ddata⟩ :=
    headForward_some bb.embed_dim (SETTINGS enc).1 bn clst md
      (SETTINGS enc).2.1 W x.n (x.h / 14) (x.w / 14) hph hpw
      (⟨x.n, x.h / 14 * (x.w / 14), bb.embed_dim, bb.patchTok i1⟩,
        ⟨x.n, bb.embed_dim, bb.clsTok i1⟩)
      (⟨x.n, x.h / 14 * (x.w / 14), bb.embed_dim, bb.patchTok i2⟩,
        ⟨x.n, bb.embed_dim, bb.clsTok i2⟩)
      (⟨x.n, x.h / 14 * (x.w / 14), bb.embed_dim, bb.patchTok i3⟩,
        ⟨x.n, bb.embed_dim, bb.clsTok i3⟩)
      (⟨x.n, x.h / 14 * (x.w / 14), bb.embed_dim, bb.patchTok i4⟩,
        ⟨x.n, bb.embed_dim, bb.clsTok i4⟩)
      ⟨rfl, rfl, rfl, rfl, rfl⟩ ⟨rfl, rfl, rfl, rfl, rfl⟩
      ⟨rfl, rfl, rfl, rfl, rfl⟩ ⟨rfl, rfl, rfl, rfl, rfl⟩
  have hDh : D.h = x.h := by rw [Dh]; exact Nat.div_mul_cancel hdh
  have hDw : D.w = x.w := by rw [Dw]; exact Nat.div_mul_cancel hdw
  have hres : resizeStep D x.h x.w = D := resizeStep_eq_self D x.h x.w hDh hDw
  have hpost :
      (if (mkDPT_DINOv2 enc bn clst md maxd bb W).metric_depth then
        Tensor.map (fun v =>
          v * (mkDPT_DINOv2 enc bn clst md maxd bb W).max_depth)
          (resizeStep D x.h x.w)
      else reluT (resizeStep D x.h x.w)) =
      Tensor.map (if md = true then (fun v => v * maxd) else relu)
        (resizeStep D x.h x.w) := by
    cases md <;> rfl
  have hc1 : (Tensor.map (if md = true then (fun v => v * maxd) else relu)
      (resizeStep D x.h x.w)).c = 1 := by
    rw [Tensor.map_c, hres, Dc]
  refine ⟨⟨D.n, D.h, D.w, fun bi yi zi =>
      (if md = true then (fun v => v * maxd) else relu)
        (D.data bi 0 yi zi)⟩, D, ?_, Dn, hDh, hDw,
    by rw [hfeat]; exact eD, fun bi yi zi => rfl, ?_⟩
  · unfold DPT_DINOv2.forward
    dsimp only
    rw [show (mkDPT_DINOv2 enc bn clst md maxd bb W).pretrained = bb from rfl,
      show (mkDPT_DINOv2 enc bn clst md maxd bb W).intermediate_layer_idx =
        (SETTINGS enc).2.2 from rfl,
      show (mkDPT_DINOv2 enc bn clst md maxd bb W).depth_head =
        mkDPTHead 1 bb.embed_dim (SETTINGS enc).1 bn (SETTINGS enc).2.1 clst
          md W from rfl,
      hfeat, eD]
    simp only [Option.bind_eq_bind, Option.some_bind]
    rw [hpost, hres]
    unfold squeeze1
    rw [if_pos (by rw [Tensor.map_c]; exact Dc)]
    rfl
  · intro bi yi zi
    obtain ⟨v, hv⟩ := Ddata bi 0 yi zi
    refine ⟨v, ?_⟩
    show (if md = true then (fun u => u * maxd) else relu)
        (D.data bi 0 yi zi) = _
    rw [hv]
    cases md
    · simp only [Bool.false_eq_true, if_false]
      exact relu_relu v
    · simp only [if_true]

/-- The sigmoid takes values in the unit interval (lower bound). -/
theorem sigmoid_nonneg (v : ℝ) : 0 ≤ sigmoid v := by
  unfold sigmoid
  positivity

/-- The sigmoid takes values in the unit interval (upper bound). -/
theorem sigmoid_le_one (v : ℝ) : sigmoid v ≤ 1 := by
  unfold sigmoid
  rw [div_le_one (by positivity)]
  have h := Real.exp_pos (-v)
  linarith

/-- The rectifier is nonnegative. -/
theorem relu_nonneg (v : ℝ) : 0 ≤ relu v := le_max_right v 0

end Lemmas

section Claims

/-- C1: for every batch >= 1 and every H, W that are positive multiples of
14, `DPT_DINOv2.forward` applied to an input tensor of shape (batch, 3, H, W)
returns a tensor of shape (batch, H, W). -/
theorem C1_forward_output_shape (enc : Encoder) (bn clst md : Bool)
    (maxd : ℝ) (bb : Backbone) (W : HeadWeights) (x : Tensor)
    (hb : 1 ≤ x.n) (hc : x.c = 3) (hdh : 14 ∣ x.h) (hdw : 14 ∣ x.w)
    (hh : 1 ≤ x.h) (hw : 1 ≤ x.w) :
    ∃ y : Image3, (mkDPT_DINOv2 enc bn clst md maxd bb W).forward x =
        some (.inl y) ∧ y.n = x.n ∧ y.h = x.h ∧ y.w = x.w := by
  obtain ⟨y, D, e, hn, hhh, hww, _, _, _⟩ :=
    modelForward_some enc bn clst md maxd bb W x hdh hdw hh hw
  exact ⟨y, e, hn, hhh, hww⟩

/-- Witness for C1 at a concrete valid instance (batch 1, 3 channels,
14 x 14 input). -/
theorem C1_forward_output_shape_witness :
    ∃ y : Image3,
      (mkDPT_DINOv2 .vits false false false 0 bb0 W0).forward X0 =
        some (.inl y) ∧ y.n = X0.n ∧ y.h = X0.h ∧ y.w = X0.w :=
  C1_forward_output_shape .vits false false false 0 bb0 W0 X0 (by decide)
    (by decide) (by decide) (by decide) (by decide) (by decide)

/-- C2: on every valid input, every output value of `DPT_DINOv2.forward` is
nonnegative, and in metric mode (`metric_depth = true`, `max_depth >= 0`)
every output value also lies below `max_depth`. -/
theorem C2_forward_output_range (enc : Encoder) (bn clst md : Bool)
    (maxd : ℝ) (bb : Backbone) (W : HeadWeights) (x : Tensor)
    (hmaxd : 0 ≤ maxd) (hdh : 14 ∣ x.h) (hdw : 14 ∣ x.w)
    (hh : 1 ≤ x.h) (hw : 1 ≤ x.w) :
    ∃ y : Image3, (mkDPT_DINOv2 enc bn clst md maxd bb W).forward x =
        some (.inl y) ∧
      ∀ bi yi zi, 0 ≤ y.data bi yi zi ∧
        (md = true → y.data bi yi zi ≤ maxd) := by
  obtain ⟨y, D, e, _, _, _, _, _, hdata⟩ :=
    modelForward_some enc bn clst md maxd bb W x hdh hdw hh hw
  refine ⟨y, e, ?_⟩
  intro bi yi zi
  obtain ⟨v, hv⟩ := hdata bi yi zi
  constructor
  · rw [hv]
    cases md
    · simp only [Bool.false_eq_true, if_false]
      exact relu_nonneg v
    · simp only [if_true]
      exact mul_nonneg (sigmoid_nonneg v) hmaxd
  · intro hmd
    rw [hv, if_pos hmd]
    calc sigmoid v * maxd ≤ 1 * maxd :=
          mul_le_mul_of_nonneg_right (sigmoid_le_one v) hmaxd
      _ = maxd := one_mul maxd

/-- Witness for C2 at a concrete metric-mode instance with
`max_depth = 1`. -/
theorem C2_forward_output_range_witness :
    ∃ y : Image3,
      (mkDPT_DINOv2 .vits false false true 1 bb0 W0).forward X0 =
        some (.inl y) ∧
      ∀ bi yi zi, 0 ≤ y.data bi yi zi ∧
        (true = true → y.data bi yi zi ≤ 1) :=
  C2_forward_output_range .vits false false true 1 bb0 W0 X0 zero_le_one
    (by decide) (by decide) (by decide) (by decide)

/-- C5: with metric depth enabled and everything else fixed, replacing
`max_depth` by `k * max_depth` multiplies every output value of
`DPT_DINOv2.forward` by `k`. -/
theorem C5_metric_output_linear_in_max_depth (enc : Encoder) (bn clst : Bool)
    (maxd k : ℝ) (bb : Backbone) (W : HeadWeights) (x : Tensor)
    (hdh : 14 ∣ x.h) (hdw : 14 ∣ x.w) (hh : 1 ≤ x.h) (hw : 1 ≤ x.w) :
    ∃ y1 y2 : Image3,
      (mkDPT_DINOv2 enc bn clst true maxd bb W).forward x =
        some (.inl y1) ∧
      (mkDPT_DINOv2 enc bn clst true (k * maxd) bb W).forward x =
        some (.inl y2) ∧
      ∀ bi yi zi, y2.data bi yi zi = k * y1.data bi yi zi := by
  obtain ⟨y1, D1, e1, _, _, _, hD1, hd1, _⟩ :=
    modelForward_some enc bn clst true maxd bb W x hdh hdw hh hw
  obtain ⟨y2, D2, e2, _, _, _, hD2, hd2, _⟩ :=
    modelForward_some enc bn clst true (k * maxd) bb W x hdh hdw hh hw
  have hD : D1 = D2 := Option.some.inj (hD1.symm.trans hD2)
  refine ⟨y1, y2, e1, e2, ?_⟩
  intro bi yi zi
  have h1 := hd1 bi yi zi
  have h2 := hd2 bi yi zi
  simp only [if_true] at h1 h2
  rw [h1, h2, ← hD]
  ring

/-- Witness for C5 at a concrete metric-mode instance with `max_depth = 1`
and scale factor 2. -/
theorem C5_metric_output_linear_in_max_depth_witness :
    ∃ y1 y2 : Image3,
      (mkDPT_DINOv2 .vits false false true 1 bb0 W0).forward X0 =
        some (.inl y1) ∧
      (mkDPT_DINOv2 .vits false false true (2 * 1) bb0 W0).forward X0 =
        some (.inl y2) ∧
      ∀ bi yi zi, y2.data bi yi zi = 2 * y1.data bi yi zi :=
  C5_metric_output_linear_in_max_depth .vits false false 1 2 bb0 W0 X0
    (by decide) (by decide) (by decide) (by decide)

/-- C8: in `DPT_DINOv2.forward`, the bilinear aligned-corners resize to
(H, W) is applied exactly when the decoder output's spatial size differs from
(H, W); when the sizes match the decoder output flows on unchanged. -/
theorem C8_conditional_resize (d : Tensor) (h w : Nat) :
    (d.h = h ∧ d.w = w → resizeStep d h w = d) ∧
    (¬(d.h = h ∧ d.w = w) → resizeStep d h w = d.bilinearAC h w) :=
  ⟨fun hc => resizeStep_eq_self d h w hc.1 hc.2, resizeStep_eq_interp d h w⟩

/-- Witness for C8: at matching sizes the step is the identity, at
mismatched sizes it is the bilinear resize. -/
theorem C8_conditional_resize_witness :
    resizeStep X0 14 14 = X0 ∧
    resizeStep X0 7 9 = X0.bilinearAC 7 9 :=
  ⟨(C8_conditional_resize X0 14 14).1 (by exact ⟨rfl, rfl⟩),
   (C8_conditional_resize X0 7 9).2 (by decide)⟩

/-- C9: the forward pass is deterministic: two invocations of
`DPT_DINOv2.forward` with equal models (weights and configuration) and equal
inputs produce equal outputs; the embedding threads no mutable state. -/
theorem C9_forward_deterministic (m1 m2 : DPT_DINOv2) (x1 x2 : Tensor)
    (hm : m1 = m2) (hx : x1 = x2) : m1.forward x1 = m2.forward x2 := by
  subst hm
  subst hx
  rfl

/-- Witness for C9 at a concrete model and input. -/
theorem C9_forward_deterministic_witness : M0.forward X0 = M0.forward X0 :=
  C9_forward_deterministic M0 M0 X0 X0 rfl rfl

/-- C10: in relative mode (`metric_depth = false`), the output of
`DPT_DINOv2.forward` does not depend on the `max_depth` constructor
argument. -/
theorem C10_relative_ignores_max_depth (enc : Encoder) (bn clst : Bool)
    (maxd1 maxd2 : ℝ) (bb : Backbone) (W : HeadWeights) (x : Tensor) :
    (mkDPT_DINOv2 enc bn clst false maxd1 bb W).forward x =
    (mkDPT_DINOv2 enc bn clst false maxd2 bb W).forward x := rfl

/-- C3: with `nclass > 1` the `__init__` branch creates only the
segmentation output head (`output_conv`), not the depth-specific
`output_conv1` / `output_conv2`, yet `forward` unconditionally accesses
`output_conv1`, so on a well-formed feature list the forward pass fails
(AttributeError in the source, `none` in the embedding) instead of producing
per-class logits. -/
theorem C3_nclass_gt1_forward_fails :
    headSeg.scratch.output_conv.isSome = true ∧
    headSeg.scratch.output_conv1 = none ∧
    headSeg.scratch.output_conv2 = none ∧
    headSeg.forward [(tok0, cls0), (tok0, cls0), (tok0, cls0), (tok0, cls0)]
      1 1 = none :=
  ⟨rfl, rfl, rfl, rfl⟩

/-- C4 (amended): the four per-layer resamplers map a
(batch, c_i, patch_h, patch_w) feature map to 4x, 2x, 1x, and
ceil-half spatial size respectively; layers 0, 1, 2 are each exactly 2x the
next, and layer 2 is exactly 2x layer 3 precisely when the patch extents are
even (the stride-2 kernel-3 conv rounds up on odd extents). -/
theorem C4_resize_layer_scales (nclass E f : Nat) (bn clst md : Bool)
    (oc : List Nat) (W : HeadWeights) (b ph pw : Nat)
    (hph : 1 ≤ ph) (hpw : 1 ≤ pw) (x0 x1 x2 x3 : Tensor)
    (h0 : x0.n = b ∧ x0.c = oc.getD 0 0 ∧ x0.h = ph ∧ x0.w = pw)
    (h1 : x1.n = b ∧ x1.c = oc.getD 1 0 ∧ x1.h = ph ∧ x1.w = pw)
    (h2 : x2.n = b ∧ x2.c = oc.getD 2 0 ∧ x2.h = ph ∧ x2.w = pw)
    (h3 : x3.n = b ∧ x3.c = oc.getD 3 0 ∧ x3.h = ph ∧ x3.w = pw) :
    ∃ y0 y1 y2 y3,
      ((mkDPTHead nclass E f bn oc clst md W).resize_layers 0).apply x0 =
        some y0 ∧ y0.h = 4 * ph ∧ y0.w = 4 * pw ∧
      ((mkDPTHead nclass E f bn oc clst md W).resize_layers 1).apply x1 =
        some y1 ∧ y1.h = 2 * ph ∧ y1.w = 2 * pw ∧
      ((mkDPTHead nclass E f bn oc clst md W).resize_layers 2).apply x2 =
        some y2 ∧ y2 = x2 ∧
      ((mkDPTHead nclass E f bn oc clst md W).resize_layers 3).apply x3 =
        some y3 ∧ y3.h = (ph - 1) / 2 + 1 ∧ y3.w = (pw - 1) / 2 + 1 ∧
      y0.h = 2 * y1.h ∧ y0.w = 2 * y1.w ∧
      y1.h = 2 * x2.h ∧ y1.w = 2 * x2.w ∧
      (2 ∣ ph → x2.h = 2 * y3.h) ∧ (2 ∣ pw → x2.w = 2 * y3.w) := by
  have hr0 : (mkDPTHead nclass E f bn oc clst md W).resize_layers 0 =
      .convTranspose
        { inC := oc.getD 0 0, outC := oc.getD 0 0, kernel := 4, stride := 4,
          weight := W.resizeW 0, bias := W.resizeB 0 } := rfl
  have hr1 : (mkDPTHead nclass E f bn oc clst md W).resize_layers 1 =
      .convTranspose
        { inC := oc.getD 1 0, outC := oc.getD 1 0, kernel := 2, stride := 2,
          weight := W.resizeW 1, bias := W.resizeB 1 } := rfl
  have hr2 : (mkDPTHead nclass E f bn oc clst md W).resize_layers 2 =
      .identity := rfl
  have hr3 : (mkDPTHead nclass E f bn oc clst md W).resize_layers 3 =
      .conv (mkConv (oc.getD 3 0) (oc.getD 3 0) 3 2 1 (W.resizeW 3)
        (W.resizeB 3)) := rfl
  obtain ⟨y0, e0, _, _, yh0, yw0⟩ :=
    convT_apply_some
      { inC := oc.getD 0 0, outC := oc.getD 0 0, kernel := 4, stride := 4,
        weight := W.resizeW 0, bias := W.resizeB 0 } x0 h0.2.1
  rw [ctOutSize_k4s4 _ rfl rfl, h0.2.2.1] at yh0
  rw [ctOutSize_k4s4 _ rfl rfl, h0.2.2.2] at yw0
  obtain ⟨y1, e1, _, _, yh1, yw1⟩ :=
    convT_apply_some
      { inC := oc.getD 1 0, outC := oc.getD 1 0, kernel := 2, stride := 2,
        weight := W.resizeW 1, bias := W.resizeB 1 } x1 h1.2.1
  rw [ctOutSize_k2s2 _ rfl rfl, h1.2.2.1] at yh1
  rw [ctOutSize_k2s2 _ rfl rfl, h1.2.2.2] at yw1
  obtain ⟨y3, e3, _, _, yh3, yw3⟩ :=
    conv_apply_some
      (mkConv (oc.getD 3 0) (oc.getD 3 0) 3 2 1 (W.resizeW 3) (W.resizeB 3))
      x3 h3.2.1 (by show (3 : Nat) ≤ x3.h + 2 * 1; omega)
      (by show (3 : Nat) ≤ x3.w + 2 * 1; omega) (by show (0 : Nat) < 2; omega)
  rw [outSize_k3s2p1 _ rfl rfl rfl, h3.2.2.1] at yh3
  rw [outSize_k3s2p1 _ rfl rfl rfl, h3.2.2.2] at yw3
  refine ⟨y0, y1, x2, y3, by rw [hr0]; exact e0, yh0, yw0,
    by rw [hr1]; exact e1, yh1, yw1, by rw [hr2]; rfl, rfl,
    by rw [hr3]; exact e3, yh3, yw3, by omega, by omega,
    by rw [yh1, h2.2.2.1], by rw [yw1, h2.2.2.2], ?_, ?_⟩
  · intro hd
    rw [h2.2.2.1, yh3]
    omega
  · intro hd
    rw [h2.2.2.2, yw3]
    omega

/-- Witness for C4 (amended) at patch size 2 x 2 on the concrete head
`headC4`. -/
theorem C4_resize_layer_scales_witness :
    ∃ y0 y1 y2 y3,
      ((mkDPTHead 1 1 2 false [1, 1, 1, 1] false false W0).resize_layers
        0).apply T22 = some y0 ∧ y0.h = 4 * 2 ∧ y0.w = 4 * 2 ∧
      ((mkDPTHead 1 1 2 false [1, 1, 1, 1] false false W0).resize_layers
        1).apply T22 = some y1 ∧ y1.h = 2 * 2 ∧ y1.w = 2 * 2 ∧
      ((mkDPTHead 1 1 2 false [1, 1, 1, 1] false false W0).resize_layers
        2).apply T22 = some y2 ∧ y2 = T22 ∧
      ((mkDPTHead 1 1 2 false [1, 1, 1, 1] false false W0).resize_layers
        3).apply T22 = some y3 ∧ y3.h = (2 - 1) / 2 + 1 ∧
        y3.w = (2 - 1) / 2 + 1 ∧
      y0.h = 2 * y1.h ∧ y0.w = 2 * y1.w ∧
      y1.h = 2 * T22.h ∧ y1.w = 2 * T22.w ∧
      (2 ∣ 2 → T22.h = 2 * y3.h) ∧ (2 ∣ 2 → T22.w = 2 * y3.w) :=
  C4_resize_layer_scales 1 1 2 false false false [1, 1, 1, 1] W0 1 2 2
    (by decide) (by decide) T22 T22 T22 T22 (by decide) (by decide)
    (by decide) (by decide)

/-- Counterexample to C4 as stated: at patch size 1 x 1 the layer-3
resampler outputs spatial extent 1, which is neither half of 1 (ceil
division rounds up) nor makes layer 2's extent (also 1) exactly twice
layer 3's. -/
theorem C4_counterexample :
    ((headC4.resize_layers 2).apply T11).map Tensor.h = some 1 ∧
    ((headC4.resize_layers 3).apply T11).map Tensor.h = some 1 ∧
    (1 : Nat) ≠ 2 * 1 ∧ (1 : Nat) ≠ 1 / 2 :=
  ⟨rfl, rfl, by decide, by decide⟩

/-- C6: the fusion chain refines top-down in the order refinenet4,
refinenet3, refinenet2, refinenet1; each stage is resized to the next finer
reduced layer's spatial size and the final stage performs no further
resize. -/
theorem C6_fusion_chain_order_and_sizes (f : Nat) (bn : Bool)
    (W1 W2 W3 W4 : FusionWeights) (b : Nat) (sc : Scratch)
    (l1 l2 l3 l4 : Tensor)
    (h1 : sc.refinenet1 = mkFusionBlock f bn W1)
    (h2 : sc.refinenet2 = mkFusionBlock f bn W2)
    (h3 : sc.refinenet3 = mkFusionBlock f bn W3)
    (h4 : sc.refinenet4 = mkFusionBlock f bn W4)
    (hl1 : l1.n = b ∧ l1.c = f ∧ 1 ≤ l1.h ∧ 1 ≤ l1.w)
    (hl2 : l2.n = b ∧ l2.c = f ∧ 1 ≤ l2.h ∧ 1 ≤ l2.w)
    (hl3 : l3.n = b ∧ l3.c = f ∧ 1 ≤ l3.h ∧ 1 ≤ l3.w)
    (hl4 : l4.n = b ∧ l4.c = f ∧ 1 ≤ l4.h ∧ 1 ≤ l4.w) :
    ∃ p4 p3 p2 p1, fusionChain sc l1 l2 l3 l4 = some (p4, p3, p2, p1) ∧
      p4.h = l3.h ∧ p4.w = l3.w ∧ p3.h = l2.h ∧ p3.w = l2.w ∧
      p2.h = l1.h ∧ p2.w = l1.w ∧ p1.h = p2.h ∧ p1.w = p2.w := by
  obtain ⟨p4, p3, p2, p1, e, _, _, a1, a2, _, _, a3, a4, _, _, a5, a6, _, _,
    a7, a8⟩ := fusionChain_some f bn W1 W2 W3 W4 b sc l1 l2 l3 l4 h1 h2 h3 h4
      hl1 hl2 hl3 hl4
  exact ⟨p4, p3, p2, p1, e, a1, a2, a3, a4, a5, a6, a7, a8⟩

/-- Witness for C6 on the concrete scratch `sc0` with width-2 layers at
4 x 4, 2 x 2, 1 x 1, 1 x 1. -/
theorem C6_fusion_chain_order_and_sizes_witness :
    ∃ p4 p3 p2 p1, fusionChain sc0 L1c L2c L3c L4c = some (p4, p3, p2, p1) ∧
      p4.h = L3c.h ∧ p4.w = L3c.w ∧ p3.h = L2c.h ∧ p3.w = L2c.w ∧
      p2.h = L1c.h ∧ p2.w = L1c.w ∧ p1.h = p2.h ∧ p1.w = p2.w :=
  C6_fusion_chain_order_and_sizes 2 false FW0 FW0 FW0 FW0 1 sc0
    L1c L2c L3c L4c rfl rfl rfl rfl (by decide) (by decide) (by decide)
    (by decide)

/-- C7: for every well-shaped list of 4 feature entries and patch extents
at least 1, `DPTHead.forward` with `nclass = 1` returns a tensor with
exactly one channel at spatial resolution (14 * patch_h, 14 * patch_w). -/
theorem C7_head_single_channel_resolution (E f : Nat) (bn clst md : Bool)
    (oc : List Nat) (W : HeadWeights) (b ph pw : Nat)
    (hph : 1 ≤ ph) (hpw : 1 ≤ pw) (f1 f2 f3 f4 : Tokens × ClsToken)
    (h1 : f1.1.n = b ∧ f1.1.t = ph * pw ∧ f1.1.e = E ∧ f1.2.n = b ∧
      f1.2.e = E)
    (h2 : f2.1.n = b ∧ f2.1.t = ph * pw ∧ f2.1.e = E ∧ f2.2.n = b ∧
      f2.2.e = E)
    (h3 : f3.1.n = b ∧ f3.1.t = ph * pw ∧ f3.1.e = E ∧ f3.2.n = b ∧
      f3.2.e = E)
    (h4 : f4.1.n = b ∧ f4.1.t = ph * pw ∧ f4.1.e = E ∧ f4.2.n = b ∧
      f4.2.e = E) :
    ∃ y, (mkDPTHead 1 E f bn oc clst md W).forward [f1, f2, f3, f4] ph pw =
        some y ∧ y.c = 1 ∧ y.h = 14 * ph ∧ y.w = 14 * pw := by
  obtain ⟨y, e, _, hc, hhh, hww, _⟩ :=
    headForward_some E f bn clst md oc W b ph pw hph hpw f1 f2 f3 f4 h1 h2
      h3 h4
  exact ⟨y, e, hc, by rw [hhh, Nat.mul_comm], by rw [hww, Nat.mul_comm]⟩

/-- Witness for C7 on the concrete head `headC4` at patch size 1 x 1. -/
theorem C7_head_single_channel_resolution_witness :
    ∃ y, (mkDPTHead 1 1 2 false [1, 1, 1, 1] false false W0).forward
        [(tok0, cls0), (tok0, cls0), (tok0, cls0), (tok0, cls0)] 1 1 =
        some y ∧ y.c = 1 ∧ y.h = 14 * 1 ∧ y.w = 14 * 1 :=
  C7_head_single_channel_resolution 1 2 false false false [1, 1, 1, 1] W0
    1 1 1 (by decide) (by decide) (tok0, cls0) (tok0, cls0) (tok0, cls0)
    (tok0, cls0) (by decide) (by decide) (by decide) (by decide)

end Claims

end DepthAnything
